import Mathlib

/-!
Verification of the DuperMemory browser extension.

The JavaScript sources are shallowly embedded:
* JS strings are embedded as `List Char` (`Str`); `String.prototype.trim`,
  `toLowerCase`, `indexOf`, `slice`, `split` become the explicit list
  functions below.  `toLowerCase` is modelled by `Char.toLower` (ASCII case
  mapping) and the trimmed whitespace set by `Char.isWhitespace`
  (space, tab, CR, LF), which covers every character the repository's own
  data can contain.
* ISO-8601 timestamps (`new Date().toISOString()`) are embedded as natural
  numbers: lexicographic comparison of ISO timestamps coincides with the
  numeric order of the instants they denote, and the code only ever
  compares them (`localeCompare`) or stores them.
* `Array.prototype.sort` with a consistent comparator is (since ES2019) the
  unique stable sort for the comparator's preorder; it is embedded as a
  structurally recursive stable insertion sort `stableSort`.
* JS objects used as maps (`pendingContext` / `pendingReview` in
  background.js) are embedded as association lists with
  lookup / overwrite / delete helpers.
-/

namespace DuperMemory

/-- A JavaScript string, embedded as its list of characters. -/
abbrev Str := List Char

/-- Conversion from a Lean string literal to the embedding type. -/
def str (s : String) : Str := s.data

/-- JS `String.prototype.toLowerCase` (ASCII case mapping). -/
def jsToLower (s : Str) : Str := s.map Char.toLower

/-- JS `String.prototype.trim`: drop whitespace at both ends. -/
def jsTrim (s : Str) : Str :=
  ((s.dropWhile Char.isWhitespace).reverse.dropWhile Char.isWhitespace).reverse

/-- JS `x || y` on strings: the empty string is falsy. -/
def jsOr (a b : Str) : Str := if a = [] then b else a

/-- JS `a.indexOf(b) !== -1`: substring containment. -/
def listContains (hay needle : Str) : Bool :=
  hay.tails.any (fun t => needle.isPrefixOf t)

/-- Helper for JS `indexOf`: first index at which `pat` occurs in `s`,
counting from `i`. -/
def strIndexOfAux (pat : Str) : Str → Nat → Option Nat
  | [], i => if pat.isPrefixOf [] then some i else none
  | c :: rest, i =>
    if pat.isPrefixOf (c :: rest) then some i else strIndexOfAux pat rest (i + 1)

/-- JS `s.indexOf(pat)`, with `none` standing for `-1`. -/
def strIndexOf (s pat : Str) : Option Nat := strIndexOfAux pat s 0

/-- `Char.toLower` never maps a character into or out of the whitespace set:
it only moves ASCII `A`–`Z` (65–90) to `a`–`z` (97–122), and the whitespace
characters (9, 10, 13, 32) are fixed by it. -/
theorem isWhitespace_toLower (c : Char) :
    (Char.toLower c).isWhitespace = c.isWhitespace := by
  have char_eq_iff : ∀ d e : Char, d = e ↔ d.toNat = e.toNat :=
    fun d e => ⟨fun h => by rw [h], fun h => Char.ext (UInt32.ext h)⟩
  simp only [Char.toLower]
  by_cases h : c.toNat ≥ 65 ∧ c.toNat ≤ 90
  · rw [if_pos h]
    have hv : (Char.ofNat (c.toNat + 32)).toNat = c.toNat + 32 := by
      have hvalid : (c.toNat + 32).isValidChar := Or.inl (by omega)
      simp [Char.ofNat, hvalid]
      rfl
    simp only [Char.isWhitespace, char_eq_iff]
    rw [hv, (show (' ' : Char).toNat = 32 by decide),
      (show ('\t' : Char).toNat = 9 by decide),
      (show ('\x0d' : Char).toNat = 13 by decide),
      (show ('\n' : Char).toNat = 10 by decide)]
    simp only [decide_eq_false (show ¬ (c.toNat + 32 = 32) by omega),
      decide_eq_false (show ¬ (c.toNat + 32 = 9) by omega),
      decide_eq_false (show ¬ (c.toNat + 32 = 13) by omega),
      decide_eq_false (show ¬ (c.toNat + 32 = 10) by omega),
      decide_eq_false (show ¬ (c.toNat = 32) by omega),
      decide_eq_false (show ¬ (c.toNat = 9) by omega),
      decide_eq_false (show ¬ (c.toNat = 13) by omega),
      decide_eq_false (show ¬ (c.toNat = 10) by omega)]
  · rw [if_neg h]

/-- Lowercasing commutes with dropping a whitespace run. -/
theorem dropWhile_ws_map_toLower (l : Str) :
    (l.map Char.toLower).dropWhile Char.isWhitespace
      = (l.dropWhile Char.isWhitespace).map Char.toLower := by
  rw [List.dropWhile_map]
  have hfun : (Char.isWhitespace ∘ Char.toLower) = Char.isWhitespace := by
    funext c
    exact isWhitespace_toLower c
  rw [hfun]

/-- Lowercasing commutes with trimming. -/
theorem jsTrim_jsToLower (l : Str) : jsTrim (jsToLower l) = jsToLower (jsTrim l) := by
  simp only [jsTrim, jsToLower]
  rw [dropWhile_ws_map_toLower, ← List.map_reverse, dropWhile_ws_map_toLower,
    ← List.map_reverse]

/-- If the head of a list does not satisfy `p`, `dropWhile p` is the identity. -/
theorem dropWhile_eq_self_of_head {α : Type} {p : α → Bool} {l : List α}
    (h : ∀ c, l.head? = some c → p c = false) : l.dropWhile p = l := by
  cases l with
  | nil => rfl
  | cons x xs =>
    have := h x rfl
    simp [List.dropWhile_cons, this]

/-- The head of `dropWhile p l` does not satisfy `p`. -/
theorem head_dropWhile_false {α : Type} (p : α → Bool) (l : List α) :
    ∀ c, (l.dropWhile p).head? = some c → p c = false := by
  intro c hc
  have := List.head?_dropWhile_not p l
  rw [hc] at this
  exact this

/-- `dropWhile` removes a prefix: what remains is a suffix of the input. -/
theorem dropWhile_suffix {α : Type} (p : α → Bool) (l : List α) :
    ∃ t, t ++ l.dropWhile p = l := by
  induction l with
  | nil => exact ⟨[], rfl⟩
  | cons x xs ih =>
    by_cases h : p x
    · obtain ⟨t, ht⟩ := ih
      exact ⟨x :: t, by simp [List.dropWhile_cons, h, ht]⟩
    · exact ⟨[], by simp [List.dropWhile_cons, h]⟩

/-- Trimming is idempotent. -/
theorem jsTrim_idem (s : Str) : jsTrim (jsTrim s) = jsTrim s := by
  simp only [jsTrim]
  set A := s.dropWhile Char.isWhitespace with hA
  set B := A.reverse.dropWhile Char.isWhitespace with hB
  have hBhead : ∀ c, B.head? = some c → c.isWhitespace = false :=
    head_dropWhile_false _ _
  have hAhead : ∀ c, A.head? = some c → c.isWhitespace = false :=
    head_dropWhile_false _ _
  -- First: the front of `B.reverse` (i.e. the last element of `B`) is not
  -- whitespace, because `B` is a suffix of `A.reverse` and the last element
  -- of `A.reverse` is the head of `A`.
  have hfront : B.reverse.dropWhile Char.isWhitespace = B.reverse := by
    apply dropWhile_eq_self_of_head
    intro c hc
    obtain ⟨t, ht⟩ := dropWhile_suffix Char.isWhitespace A.reverse
    rw [← hB] at ht
    cases hBnil : B with
    | nil => rw [hBnil] at hc; simp at hc
    | cons b bs =>
      have hlast : A.head? = some c := by
        have h1 : B.reverse.head? = some c := hc
        have h2 : B.getLast? = some c := by
          rw [← List.head?_reverse]; exact h1
        have h3 : A.reverse.getLast? = some c := by
          rw [← ht, List.getLast?_append_of_ne_nil]
          · exact h2
          · rw [hBnil]; simp
        rw [List.getLast?_reverse] at h3
        exact h3
      exact hAhead c hlast
  rw [hfront, List.reverse_reverse]
  have hback : B.dropWhile Char.isWhitespace = B :=
    dropWhile_eq_self_of_head hBhead
  rw [hback]

/-!
## utils/memory.js — data model, merge, eviction
-/

/-- `MEMORY_LIMITS.maxEntities` in utils/memory.js. -/
def maxEntities : Nat := 30

/-- `MEMORY_LIMITS.maxDecisions` in utils/memory.js. -/
def maxDecisions : Nat := 20

/-- `MEMORY_LIMITS.maxOpenQuestions` in utils/memory.js. -/
def maxOpenQuestions : Nat := 10

/-- `MEMORY_LIMITS.maxConstraints` in utils/memory.js. -/
def maxConstraints : Nat := 15

/-- An entry of `memory.entities` (see `mergeMemory`, utils/memory.js). -/
structure Entity where
  name : Str
  type : Str
  summary : Str
  mentions : Nat
  last_updated : Nat
deriving DecidableEq

/-- An entry of `memory.decisions` / `memory.open_questions`
(`{ text, added_at }` objects pushed by `mergeMemory`). -/
structure TextEntry where
  text : Str
  added_at : Nat
deriving DecidableEq

/-- An entry of `summary.entities` (`{ name, type, summary }`), as produced by
the summarization prompt or by `parseMemoryBlock`.  An absent `type` or
`summary` is embedded as the empty string (both are falsy in the JS code). -/
structure SummaryEntity where
  name : Str
  type : Str
  summary : Str
deriving DecidableEq

/-- A summary object (the shape documented above `mergeMemory`).  An absent
scalar field is embedded as the empty string and an absent list as the empty
list; `mergeMemory` treats the absent and the empty value identically
(falsy scalars, loops over no elements). -/
structure Summary where
  topic : Str := []
  user_goal : Str := []
  important_facts : List Str := []
  decisions_made : List Str := []
  current_task : Str := []
  entities : List SummaryEntity := []
  open_questions : List Str := []
  constraints : List Str := []
deriving DecidableEq

/-- The central `ConversationMemory` object (see `createEmptyMemory`). -/
structure Memory where
  version : Nat
  conversation_id : Str
  created_at : Nat
  updated_at : Nat
  topic : Str
  user_goal : Str
  entities : List Entity
  decisions : List TextEntry
  open_questions : List TextEntry
  constraints : List Str
  current_task : Str
  iteration_count : Nat
deriving DecidableEq

/-- `createEmptyMemory(conversationId)` in utils/memory.js; `now` is the
embedded timestamp taken at creation. -/
def createEmptyMemory (conversationId : Str) (now : Nat) : Memory where
  version := 1
  conversation_id := conversationId
  created_at := now
  updated_at := now
  topic := []
  user_goal := []
  entities := []
  decisions := []
  open_questions := []
  constraints := []
  current_task := []
  iteration_count := 0

/-- The key on which `mergeMemory` deduplicates entities:
`name.toLowerCase().trim()`. -/
def entityKey (name : Str) : Str := jsTrim (jsToLower name)

/-- The inner entity loop of `mergeMemory` (lines 115–135 of utils/memory.js)
for one incoming entity: bump the first entity whose key matches, otherwise
push a new entity at the end. -/
def upsertEntity (now : Nat) (inc : SummaryEntity) : List Entity → List Entity
  | [] =>
    [{ name := jsTrim inc.name
       type := jsOr inc.type (str "other")
       summary := inc.summary
       mentions := 1
       last_updated := now }]
  | x :: xs =>
    if entityKey x.name = entityKey inc.name then
      { x with
        mentions := x.mentions + 1
        last_updated := now
        summary := if inc.summary = [] then x.summary else inc.summary
        type := if inc.type = [] then x.type else inc.type } :: xs
    else
      x :: upsertEntity now inc xs

/-- The entity merge loop of `mergeMemory` (lines 107–137): incoming entities
with a falsy `name` are skipped. -/
def mergeEntities (now : Nat) (mem : List Entity) : List SummaryEntity → List Entity
  | [] => mem
  | inc :: rest =>
    if inc.name = [] then mergeEntities now mem rest
    else mergeEntities now (upsertEntity now inc mem) rest

/-- `isDuplicate(existingArray, newText)` in utils/memory.js, with the entry
texts already projected out (every stored entry has a non-empty `.text`, so
`entry.text || entry` always reads `.text`). -/
def isDuplicate (existing : List Str) (newText : Str) : Bool :=
  let lower := jsToLower newText
  existing.any (fun e0 =>
    let e := jsToLower e0
    e = lower || listContains e lower || listContains lower e)

/-- The decisions merge loop of `mergeMemory` (lines 140–148); the
open-questions loop (lines 151–159) is character-for-character identical,
so both are embedded by this one function. -/
def mergeTextList (now : Nat) (acc : List TextEntry) : List Str → List TextEntry
  | [] => acc
  | t :: ts =>
    let dec := jsTrim t
    if dec = [] then mergeTextList now acc ts
    else if isDuplicate (acc.map (·.text)) dec then mergeTextList now acc ts
    else mergeTextList now (acc ++ [{ text := dec, added_at := now }]) ts

/-- The constraints merge loop of `mergeMemory` (lines 162–170):
exact-match deduplication via `indexOf`. -/
def mergeConstraints (acc : List Str) : List Str → List Str
  | [] => acc
  | t :: ts =>
    let c := jsTrim t
    if c = [] then mergeConstraints acc ts
    else if c ∈ acc then mergeConstraints acc ts
    else mergeConstraints (acc ++ [c]) ts

/-- The entity comparator of `evict` (lines 203–206 of utils/memory.js) as a
`≤`-style predicate: `a` sorts no later than `b` iff the comparator returns
a non-positive number, i.e. `a` has strictly more mentions, or equal
mentions and `a.last_updated` ≤ `b.last_updated` (`localeCompare` on
ISO timestamps is their chronological order). -/
def evictLe (a b : Entity) : Bool :=
  if a.mentions ≠ b.mentions then a.mentions > b.mentions
  else a.last_updated ≤ b.last_updated

/-- Stable insertion into a sorted list: `x` goes in front of the first
element it sorts no later than. -/
def stableInsert {α : Type} (le : α → α → Bool) (x : α) : List α → List α
  | [] => [x]
  | y :: ys => if le x y then x :: y :: ys else y :: stableInsert le x ys

/-- Stable insertion sort: the embedding of `Array.prototype.sort` with a
consistent comparator (stable since ES2019; for a total, transitive
comparator the stable sorted permutation is unique). -/
def stableSort {α : Type} (le : α → α → Bool) : List α → List α
  | [] => []
  | x :: xs => stableInsert le x (stableSort le xs)

/-- `evict(memory)` in utils/memory.js: entities over capacity are sorted by
`evictLe` and truncated to `maxEntities`; the three text lists drop from the
front (`slice(length - cap)`). -/
def evict (memory : Memory) : Memory :=
  let ents :=
    if memory.entities.length > maxEntities then
      (stableSort evictLe memory.entities).take maxEntities
    else memory.entities
  let decs :=
    if memory.decisions.length > maxDecisions then
      memory.decisions.drop (memory.decisions.length - maxDecisions)
    else memory.decisions
  let oqs :=
    if memory.open_questions.length > maxOpenQuestions then
      memory.open_questions.drop (memory.open_questions.length - maxOpenQuestions)
    else memory.open_questions
  let cons :=
    if memory.constraints.length > maxConstraints then
      memory.constraints.drop (memory.constraints.length - maxConstraints)
    else memory.constraints
  { memory with
    entities := ents
    decisions := decs
    open_questions := oqs
    constraints := cons }

/-- `mergeMemory(memory, summary)` in utils/memory.js; `now` is the embedded
`new Date().toISOString()` taken at the top of the call. -/
def mergeMemory (memory : Memory) (summary : Summary) (now : Nat) : Memory :=
  let m1 : Memory :=
    { memory with
      topic := jsOr summary.topic memory.topic
      user_goal := jsOr summary.user_goal memory.user_goal
      current_task := jsOr summary.current_task memory.current_task
      updated_at := now
      iteration_count := memory.iteration_count + 1 }
  let m2 : Memory := { m1 with entities := mergeEntities now m1.entities summary.entities }
  let m3 : Memory := { m2 with decisions := mergeTextList now m2.decisions summary.decisions_made }
  let m4 : Memory := { m3 with open_questions := mergeTextList now m3.open_questions summary.open_questions }
  let m5 : Memory := { m4 with constraints := mergeConstraints m4.constraints summary.constraints }
  evict m5

/-- All memories reachable from the empty memory by a sequence of
`mergeMemory` calls (each step carries its summary and its timestamp). -/
def applyMerges (conversationId : Str) (t0 : Nat) (steps : List (Summary × Nat)) : Memory :=
  steps.foldl (fun m p => mergeMemory m p.1 p.2) (createEmptyMemory conversationId t0)

/-!
## Invariants of merge and eviction
-/

/-- Trimming a name first does not change its dedup key
(`toLowerCase` and `trim` commute, and `trim` is idempotent). -/
theorem entityKey_jsTrim (n : Str) : entityKey (jsTrim n) = entityKey n := by
  simp only [entityKey]
  rw [← jsTrim_jsToLower, jsTrim_idem]

/-- No two entities share a dedup key (name compared lowercased + trimmed). -/
def EntityKeysDistinct (l : List Entity) : Prop :=
  l.Pairwise (fun a b => entityKey a.name ≠ entityKey b.name)

/-- All four bounded lists are within their per-category capacity. -/
def MemoryWithinLimits (m : Memory) : Prop :=
  m.entities.length ≤ maxEntities ∧ m.decisions.length ≤ maxDecisions ∧
    m.open_questions.length ≤ maxOpenQuestions ∧ m.constraints.length ≤ maxConstraints

/-- Every entity coming out of `upsertEntity` either carries the incoming
(trimmed) name or the name of an entity that was already present. -/
theorem name_of_mem_upsertEntity (now : Nat) (inc : SummaryEntity) (xs : List Entity) :
    ∀ y ∈ upsertEntity now inc xs, y.name = jsTrim inc.name ∨ ∃ z ∈ xs, y.name = z.name := by
  induction xs with
  | nil =>
    intro y hy
    simp only [upsertEntity, List.mem_singleton] at hy
    subst hy
    exact Or.inl rfl
  | cons x xs ih =>
    intro y hy
    simp only [upsertEntity] at hy
    by_cases h : entityKey x.name = entityKey inc.name
    · rw [if_pos h] at hy
      rcases List.mem_cons.mp hy with h1 | h1
      · subst h1; exact Or.inr ⟨x, List.mem_cons_self x xs, rfl⟩
      · exact Or.inr ⟨y, List.mem_cons_of_mem x h1, rfl⟩
    · rw [if_neg h] at hy
      rcases List.mem_cons.mp hy with h1 | h1
      · subst h1; exact Or.inr ⟨y, List.mem_cons_self y xs, rfl⟩
      · rcases ih y h1 with h2 | ⟨z, hz, h2⟩
        · exact Or.inl h2
        · exact Or.inr ⟨z, List.mem_cons_of_mem x hz, h2⟩

/-- `upsertEntity` preserves key-distinctness: it either bumps an existing
entity in place (same name) or appends an entity whose key no existing
entity carries. -/
theorem upsertEntity_distinct (now : Nat) (inc : SummaryEntity) (xs : List Entity)
    (h : EntityKeysDistinct xs) : EntityKeysDistinct (upsertEntity now inc xs) := by
  induction xs with
  | nil =>
    simp [upsertEntity, EntityKeysDistinct]
  | cons x xs ih =>
    rw [EntityKeysDistinct, List.pairwise_cons] at h
    obtain ⟨hx, hxs⟩ := h
    simp only [upsertEntity]
    by_cases hk : entityKey x.name = entityKey inc.name
    · rw [if_pos hk]
      rw [EntityKeysDistinct, List.pairwise_cons]
      exact ⟨fun z hz => hx z hz, hxs⟩
    · rw [if_neg hk]
      rw [EntityKeysDistinct, List.pairwise_cons]
      constructor
      · intro y hy
        rcases name_of_mem_upsertEntity now inc xs y hy with h1 | ⟨z, hz, h1⟩
        · rw [h1, entityKey_jsTrim]
          exact hk
        · rw [h1]
          exact hx z hz
      · exact ih hxs

/-- The entity merge loop preserves key-distinctness. -/
theorem mergeEntities_distinct (now : Nat) (incoming : List SummaryEntity) :
    ∀ mem : List Entity, EntityKeysDistinct mem →
      EntityKeysDistinct (mergeEntities now mem incoming) := by
  induction incoming with
  | nil => intro mem h; exact h
  | cons inc rest ih =>
    intro mem h
    simp only [mergeEntities]
    by_cases hn : inc.name = []
    · rw [if_pos hn]; exact ih mem h
    · rw [if_neg hn]; exact ih _ (upsertEntity_distinct now inc mem h)

/-- Stable insertion produces a permutation of consing. -/
theorem stableInsert_perm {α : Type} (le : α → α → Bool) (x : α) (l : List α) :
    List.Perm (stableInsert le x l) (x :: l) := by
  induction l with
  | nil => exact List.Perm.refl _
  | cons y ys ih =>
    simp only [stableInsert]
    by_cases h : le x y
    · rw [if_pos h]
    · rw [if_neg h]
      exact List.Perm.trans (List.Perm.cons y ih) (List.Perm.swap x y ys)

/-- Stable insertion sort permutes its input. -/
theorem stableSort_perm {α : Type} (le : α → α → Bool) (l : List α) :
    List.Perm (stableSort le l) l := by
  induction l with
  | nil => exact List.Perm.refl _
  | cons x xs ih =>
    exact List.Perm.trans (stableInsert_perm le x (stableSort le xs))
      (List.Perm.cons x ih)

/-- Eviction preserves key-distinctness: sorting permutes and truncation
takes a sublist, and pairwise distinctness survives both. -/
theorem evict_distinct (m : Memory) (h : EntityKeysDistinct m.entities) :
    EntityKeysDistinct (evict m).entities := by
  show EntityKeysDistinct (if m.entities.length > maxEntities then
    (stableSort evictLe m.entities).take maxEntities else m.entities)
  by_cases hlen : m.entities.length > maxEntities
  · rw [if_pos hlen]
    have hsym : ∀ {a b : Entity},
        entityKey a.name ≠ entityKey b.name → entityKey b.name ≠ entityKey a.name :=
      fun h => h.symm
    have hperm := stableSort_perm evictLe m.entities
    have hsorted : EntityKeysDistinct (stableSort evictLe m.entities) :=
      (List.Perm.pairwise_iff hsym hperm).mpr h
    exact List.Pairwise.sublist (List.take_sublist _ _) hsorted
  · rw [if_neg hlen]; exact h

/-- Eviction leaves every bounded list within its capacity. -/
theorem evict_withinLimits (m : Memory) : MemoryWithinLimits (evict m) := by
  refine ⟨?_, ?_, ?_, ?_⟩
  · show (if m.entities.length > maxEntities then
        (stableSort evictLe m.entities).take maxEntities else m.entities).length ≤ maxEntities
    by_cases h : m.entities.length > maxEntities
    · rw [if_pos h, List.length_take]
      omega
    · rw [if_neg h]; omega
  · show (if m.decisions.length > maxDecisions then
        m.decisions.drop (m.decisions.length - maxDecisions) else m.decisions).length ≤ maxDecisions
    by_cases h : m.decisions.length > maxDecisions
    · rw [if_pos h, List.length_drop]; omega
    · rw [if_neg h]; omega
  · show (if m.open_questions.length > maxOpenQuestions then
        m.open_questions.drop (m.open_questions.length - maxOpenQuestions)
      else m.open_questions).length ≤ maxOpenQuestions
    by_cases h : m.open_questions.length > maxOpenQuestions
    · rw [if_pos h, List.length_drop]; omega
    · rw [if_neg h]; omega
  · show (if m.constraints.length > maxConstraints then
        m.constraints.drop (m.constraints.length - maxConstraints)
      else m.constraints).length ≤ maxConstraints
    by_cases h : m.constraints.length > maxConstraints
    · rw [if_pos h, List.length_drop]; omega
    · rw [if_neg h]; omega

/-- One `mergeMemory` call keeps entity keys distinct and, thanks to the
final `evict`, leaves every bounded list within capacity. -/
theorem mergeMemory_invariant (m : Memory) (s : Summary) (now : Nat)
    (h : EntityKeysDistinct m.entities) :
    EntityKeysDistinct (mergeMemory m s now).entities ∧
      MemoryWithinLimits (mergeMemory m s now) := by
  have hents : EntityKeysDistinct (mergeEntities now m.entities s.entities) :=
    mergeEntities_distinct now s.entities m.entities h
  constructor
  · exact evict_distinct _ hents
  · exact evict_withinLimits _

/-- If no list is over its capacity, `evict` changes nothing. -/
theorem evict_eq_self_of_withinLimits (m : Memory) (h : MemoryWithinLimits m) :
    evict m = m := by
  obtain ⟨h1, h2, h3, h4⟩ := h
  show ({ m with
      entities := if m.entities.length > maxEntities then
        (stableSort evictLe m.entities).take maxEntities else m.entities
      decisions := if m.decisions.length > maxDecisions then
        m.decisions.drop (m.decisions.length - maxDecisions) else m.decisions
      open_questions := if m.open_questions.length > maxOpenQuestions then
        m.open_questions.drop (m.open_questions.length - maxOpenQuestions)
      else m.open_questions
      constraints := if m.constraints.length > maxConstraints then
        m.constraints.drop (m.constraints.length - maxConstraints)
      else m.constraints } : Memory) = m
  rw [if_neg (by omega), if_neg (by omega), if_neg (by omega), if_neg (by omega)]

/-- C1.  Every memory reachable from the empty memory by any sequence of
`mergeMemory` calls (arbitrary summaries, arbitrary timestamps) has all four
bounded lists within capacity — entities ≤ 30, decisions ≤ 20,
open_questions ≤ 10, constraints ≤ 15 — and no two of its entities have
names that are equal after lowercasing and trimming. -/
theorem merge_reachable_invariant (conversationId : Str) (t0 : Nat)
    (steps : List (Summary × Nat)) :
    ((applyMerges conversationId t0 steps).entities.length ≤ 30 ∧
      (applyMerges conversationId t0 steps).decisions.length ≤ 20 ∧
      (applyMerges conversationId t0 steps).open_questions.length ≤ 10 ∧
      (applyMerges conversationId t0 steps).constraints.length ≤ 15) ∧
    EntityKeysDistinct (applyMerges conversationId t0 steps).entities := by
  have main : ∀ (l : List (Summary × Nat)) (m : Memory),
      EntityKeysDistinct m.entities ∧ MemoryWithinLimits m →
      EntityKeysDistinct (l.foldl (fun m p => mergeMemory m p.1 p.2) m).entities ∧
        MemoryWithinLimits (l.foldl (fun m p => mergeMemory m p.1 p.2) m) := by
    intro l
    induction l with
    | nil => intro m h; exact h
    | cons p rest ih =>
      intro m h
      exact ih _ (mergeMemory_invariant m p.1 p.2 h.1)
  have hempty : EntityKeysDistinct (createEmptyMemory conversationId t0).entities ∧
      MemoryWithinLimits (createEmptyMemory conversationId t0) := by
    constructor
    · exact List.Pairwise.nil
    · refine ⟨?_, ?_, ?_, ?_⟩ <;> simp [createEmptyMemory, maxEntities, maxDecisions,
        maxOpenQuestions, maxConstraints]
  have h := main steps _ hempty
  exact ⟨h.2, h.1⟩

/-- A memory whose 31 entities all have `mentions = 1` and pairwise distinct
`last_updated` stamps 0,…,30: the eviction tie-break decides everything. -/
def memC2 : Memory :=
  { createEmptyMemory (str "c2") 0 with
    entities := (List.range 31).map (fun i =>
      { name := [], type := [], summary := [], mentions := 1, last_updated := i }) }

/-- C2 (code behavior at the failing input).  With 31 equally-mentioned
entities stamped 0,…,30, `evict` keeps the 30 *least* recently updated
entities (stamps 0,…,29) and evicts the most recently updated one
(stamp 30): the comparator's tie-break sorts `last_updated` ascending and
truncation keeps the front, contradicting both the spec and the code's own
comments ("drop the oldest items first", "keep most-mentioned,
most-recent"). -/
theorem evict_drops_most_recent_on_ties :
    (evict memC2).entities.map (·.last_updated) = List.range 30 ∧
      ∀ e ∈ (evict memC2).entities, e.last_updated ≠ 30 := by
  constructor
  · decide
  · decide

/-- First summary of the C3 scenario: topic "Trip planning", one entity
"Paris" of type "tool" with summary "destination". -/
def summaryTrip1 : Summary :=
  { topic := str "Trip planning"
    entities := [{ name := str "Paris", type := str "tool", summary := str "destination" }] }

/-- Second summary of the C3 scenario: one entity "paris" (no type) with
summary "updated". -/
def summaryTrip2 : Summary :=
  { entities := [{ name := str "paris", type := [], summary := str "updated" }] }

/-- The memory after merging the first summary into the empty memory. -/
def memTrip1 : Memory := mergeMemory (createEmptyMemory (str "conv_1") 0) summaryTrip1 1

/-- The memory after also merging the second summary. -/
def memTrip2 : Memory := mergeMemory memTrip1 summaryTrip2 2

/-- C3.  Merging the Trip-planning summary into the empty memory for
`conv_1` gives exactly one entity, "Paris", with `mentions = 1`; merging the
follow-up summary whose entity is spelled "paris" still gives exactly one
entity — no duplicate by case/whitespace-insensitive name — with
`mentions = 2` and the summary overwritten to "updated". -/
theorem merge_paris_dedup_mentions :
    memTrip1.entities.map (fun e => (e.name, e.mentions)) = [(str "Paris", 1)] ∧
      memTrip2.entities.map (fun e => (e.name, e.mentions, e.summary))
        = [(str "Paris", 2, str "updated")] := by
  constructor
  · decide
  · decide

/-- A memory with 31 entities whose mention counts are 1, 2, 3, 3, …, 3 in
insertion order (stamps 0,…,30 keep them distinguishable). -/
def memC4 : Memory :=
  { createEmptyMemory (str "c4") 0 with
    entities := (List.range 31).map (fun i =>
      { name := [], type := [], summary := [],
        mentions := if i = 0 then 1 else if i = 1 then 2 else 3,
        last_updated := i }) }

/-- C4 counterexample.  On `memC4`, eviction *reorders* the surviving
entities: the survivor with 2 mentions (inserted second) is moved behind all
the 3-mention entities by the sort, so the survivors are not a subsequence
of the pre-eviction list — refuting "the items that survive eviction appear
in the same relative order they had before eviction" for the entity field. -/
theorem evict_reorders_surviving_entities :
    ¬ List.Sublist (evict memC4).entities memC4.entities := by
  decide

/-- C4 (amended).  Eviction is idempotent, and it preserves the relative
order of the surviving items for decisions, open questions and constraints
(these drop from the front); for entities the order is preserved only when
the list is within capacity (otherwise the eviction sort may reorder the
survivors, as `evict_reorders_surviving_entities` shows). -/
theorem evict_idempotent_order (m : Memory) :
    evict (evict m) = evict m ∧
      List.Sublist (evict m).decisions m.decisions ∧
      List.Sublist (evict m).open_questions m.open_questions ∧
      List.Sublist (evict m).constraints m.constraints ∧
      (m.entities.length ≤ maxEntities → (evict m).entities = m.entities) := by
  refine ⟨?_, ?_, ?_, ?_, ?_⟩
  · exact evict_eq_self_of_withinLimits _ (evict_withinLimits m)
  · show List.Sublist (if m.decisions.length > maxDecisions then
        m.decisions.drop (m.decisions.length - maxDecisions) else m.decisions) m.decisions
    by_cases h : m.decisions.length > maxDecisions
    · rw [if_pos h]; exact List.drop_sublist _ _
    · rw [if_neg h]
  · show List.Sublist (if m.open_questions.length > maxOpenQuestions then
        m.open_questions.drop (m.open_questions.length - maxOpenQuestions)
      else m.open_questions) m.open_questions
    by_cases h : m.open_questions.length > maxOpenQuestions
    · rw [if_pos h]; exact List.drop_sublist _ _
    · rw [if_neg h]
  · show List.Sublist (if m.constraints.length > maxConstraints then
        m.constraints.drop (m.constraints.length - maxConstraints)
      else m.constraints) m.constraints
    by_cases h : m.constraints.length > maxConstraints
    · rw [if_pos h]; exact List.drop_sublist _ _
    · rw [if_neg h]
  · intro h
    show (if m.entities.length > maxEntities then
        (stableSort evictLe m.entities).take maxEntities else m.entities) = m.entities
    rw [if_neg (by omega)]

/-- Witness for `evict_idempotent_order` at a concrete memory whose entity
list is within capacity. -/
theorem evict_idempotent_order_witness :
    (createEmptyMemory (str "w") 0).entities.length ≤ maxEntities ∧
      (evict (createEmptyMemory (str "w") 0)).entities
        = (createEmptyMemory (str "w") 0).entities :=
  ⟨by decide, (evict_idempotent_order (createEmptyMemory (str "w") 0)).2.2.2.2 (by decide)⟩

/-!
## utils/summarize-generic.js — target-response parser

`parseSummary` is `JSON.parse` (a JS builtin, not repository code) followed
by a field normalization; the embedding passes it in as an explicit
function parameter `jsonParse : Str → Summary` wherever the JS calls
`parseSummary`, so every theorem below holds for *any* behavior of the JSON
parser.  The normalization guarantees exactly the `Summary` shape.
-/

/-- `MEMORY_START_MARKER` in utils/summarize-generic.js. -/
def MEMORY_START_MARKER : Str := str "---MEMORY---"

/-- `MEMORY_END_MARKER` in utils/summarize-generic.js. -/
def MEMORY_END_MARKER : Str := str "---END MEMORY---"

/-- `splitSemicolons(str)`: split on `;`, trim parts, drop empties. -/
def splitSemicolons (s : Str) : List Str :=
  if s = [] then []
  else ((s.splitOn ';').map jsTrim).filter (fun x => x.length > 0)

/-- `parseEntityEntry(entry)`: split `name/type/summary` on the first two
slashes only. -/
def parseEntityEntry (entry : Str) : Option SummaryEntity :=
  match List.findIdx? (fun c => c = '/') entry with
  | none =>
    if jsTrim entry = [] then none
    else some { name := jsTrim entry, type := str "other", summary := [] }
  | some first =>
    let name := jsTrim (entry.take first)
    let rest := entry.drop (first + 1)
    match List.findIdx? (fun c => c = '/') rest with
    | none =>
      if name = [] then none
      else some { name := name, type := jsOr (jsTrim rest) (str "other"), summary := [] }
    | some second =>
      if name = [] then none
      else some { name := name
                  type := jsOr (jsTrim (rest.take second)) (str "other")
                  summary := jsTrim (rest.drop (second + 1)) }

/-- The regex `^[-*]\s*` replacement in `parseMemoryBlock`: strip one
leading bullet character and the whitespace run after it. -/
def stripBullet (l : Str) : Str :=
  match l with
  | c :: rest => if c = '-' ∨ c = '*' then rest.dropWhile Char.isWhitespace else l
  | [] => l

/-- The line loop of `parseMemoryBlock` (lines 158–174): each line is
trimmed, bullet-stripped, split at its first colon into a lowercased key
and a trimmed value; blank lines, colonless lines and empty values are
skipped.  Assignments are accumulated in order (a later line overwrites an
earlier one with the same key). -/
def collectFields : List Str → List (Str × Str)
  | [] => []
  | line :: rest =>
    let t := jsTrim line
    if t = [] then collectFields rest
    else
      let l2 := stripBullet t
      match List.findIdx? (fun c => c = ':') l2 with
      | none => collectFields rest
      | some colonIdx =>
        let key := jsToLower (jsTrim (l2.take colonIdx))
        let value := jsTrim (l2.drop (colonIdx + 1))
        if value = [] then collectFields rest
        else (key, value) :: collectFields rest

/-- `fields[key] || ""`: the last assignment wins (JS object overwrite). -/
def getField (fields : List (Str × Str)) (k : Str) : Str :=
  match fields.reverse.find? (fun p => p.1 = k) with
  | some p => p.2
  | none => []

/-- `parseMemoryBlock(blockStr)` in utils/summarize-generic.js. -/
def parseMemoryBlock (blockStr : Str) : Option Summary :=
  let fields := collectFields (blockStr.splitOn '\n')
  let topic := getField fields (str "topic")
  let userGoal := jsOr (getField fields (str "goal"))
    (jsOr (getField fields (str "user goal")) (getField fields (str "user_goal")))
  let currentTask := jsOr (getField fields (str "task"))
    (jsOr (getField fields (str "current task")) (getField fields (str "current_task")))
  let factsRaw := jsOr (getField fields (str "facts"))
    (jsOr (getField fields (str "important facts")) (getField fields (str "important_facts")))
  let decsRaw := jsOr (getField fields (str "decisions"))
    (jsOr (getField fields (str "decisions made")) (getField fields (str "decisions_made")))
  let openRaw := jsOr (getField fields (str "open"))
    (jsOr (getField fields (str "open questions")) (getField fields (str "open_questions")))
  let consRaw := getField fields (str "constraints")
  let entsRaw := getField fields (str "entities")
  let facts := splitSemicolons factsRaw
  let decisions := splitSemicolons decsRaw
  let openQs := splitSemicolons openRaw
  let constraints := splitSemicolons consRaw
  let entities := (splitSemicolons entsRaw).filterMap parseEntityEntry
  if topic = [] ∧ userGoal = [] ∧ currentTask = [] ∧
      facts = [] ∧ decisions = [] ∧ entities = [] then none
  else some
    { topic := topic
      user_goal := userGoal
      important_facts := facts
      decisions_made := decisions
      current_task := currentTask
      entities := entities
      open_questions := openQs
      constraints := constraints }

/-- The `hasData` check of the JSON fallback branch of `parseTargetResponse`
(lines 129–130): only topic, user_goal, current_task, entities and
decisions_made count as data. -/
def summaryHasData (s : Summary) : Bool :=
  s.topic ≠ [] || s.user_goal ≠ [] || s.current_task ≠ [] ||
    s.entities.length > 0 || s.decisions_made.length > 0

/-- The result of `parseTargetResponse`. -/
structure ParsedTarget where
  reply : Str
  memoryUpdate : Option Summary
deriving DecidableEq

/-- `parseTargetResponse(fullText)` in utils/summarize-generic.js,
parameterized by the `parseSummary` JSON fallback (`jsonParse`). -/
def parseTargetResponse (jsonParse : Str → Summary) (fullText : Str) : ParsedTarget :=
  if fullText = [] then { reply := fullText, memoryUpdate := none }
  else
    match strIndexOf fullText MEMORY_START_MARKER, strIndexOf fullText MEMORY_END_MARKER with
    | some startIdx, some endIdx =>
      if endIdx ≤ startIdx then { reply := jsTrim fullText, memoryUpdate := none }
      else
        let reply := jsTrim (fullText.take startIdx)
        let blockStr := jsTrim ((fullText.take endIdx).drop
          (startIdx + MEMORY_START_MARKER.length))
        if blockStr.head? = some '{' then
          let jsonParsed := jsonParse blockStr
          { reply := reply
            memoryUpdate := if summaryHasData jsonParsed then some jsonParsed else none }
        else
          { reply := reply, memoryUpdate := parseMemoryBlock blockStr }
    | _, _ => { reply := jsTrim fullText, memoryUpdate := none }

/-- C5.  `parseTargetResponse` degrades gracefully: with absent or malformed
memory markers (no start marker, no end marker, or the end marker not after
the start marker) it returns the whole input trimmed as the reply and no
memory update, for any JSON fallback.  With well-formed markers the reply is
the trimmed text before the start marker; in particular the scenario input
decodes to reply "Sure, here's my take..." with `memoryUpdate.topic = "X"`. -/
theorem parseTargetResponse_markers :
    (∀ (jsonParse : Str → Summary) (fullText : Str),
      (strIndexOf fullText MEMORY_START_MARKER = none ∨
        strIndexOf fullText MEMORY_END_MARKER = none ∨
        (∃ s e, strIndexOf fullText MEMORY_START_MARKER = some s ∧
          strIndexOf fullText MEMORY_END_MARKER = some e ∧ e ≤ s)) →
      parseTargetResponse jsonParse fullText
        = { reply := jsTrim fullText, memoryUpdate := none }) ∧
    (∀ (jsonParse : Str → Summary) (fullText : Str) (s e : Nat),
      strIndexOf fullText MEMORY_START_MARKER = some s →
      strIndexOf fullText MEMORY_END_MARKER = some e → s < e →
      (parseTargetResponse jsonParse fullText).reply = jsTrim (fullText.take s)) ∧
    (∀ jsonParse : Str → Summary,
      parseTargetResponse jsonParse
          (str "Sure, here\x27s my take...\n---MEMORY---\nTopic: X\n---END MEMORY---")
        = { reply := str "Sure, here\x27s my take..."
            memoryUpdate := some { topic := str "X" } }) := by
  refine ⟨?_, ?_, ?_⟩
  · intro jsonParse fullText h
    by_cases hft : fullText = []
    · subst hft; rfl
    · rcases h with hs | he | ⟨s, e, hs, he, hle⟩
      · simp only [parseTargetResponse, if_neg hft, hs]
      · simp only [parseTargetResponse, if_neg hft, he]
        cases strIndexOf fullText MEMORY_START_MARKER <;> rfl
      · simp only [parseTargetResponse, if_neg hft, hs, he, if_pos hle]
  · intro jsonParse fullText s e hs he hlt
    have hft : fullText ≠ [] := by
      intro hnil
      rw [hnil] at hs
      rw [(by decide : strIndexOf ([] : Str) MEMORY_START_MARKER = none)] at hs
      exact Option.noConfusion hs
    simp only [parseTargetResponse, if_neg hft, hs, he, if_neg (by omega : ¬ e ≤ s)]
    by_cases hb : (jsTrim ((fullText.take e).drop (s + MEMORY_START_MARKER.length))).head?
        = some '{'
    · rw [if_pos hb]
    · rw [if_neg hb]
  · intro jsonParse
    rfl

/-- Witness for `parseTargetResponse_markers` at a marker-free input and at
the scenario input. -/
theorem parseTargetResponse_markers_witness :
    strIndexOf (str "no markers here") MEMORY_START_MARKER = none ∧
      parseTargetResponse (fun _ => {}) (str "no markers here")
        = { reply := jsTrim (str "no markers here"), memoryUpdate := none } :=
  ⟨by decide, parseTargetResponse_markers.1 (fun _ => {}) _ (Or.inl (by decide))⟩

/-- C10.  The emptiness checks ignore open questions and constraints: a
labeled block whose only fields are `Open:` and `Constraints:` parses to
`none` (the items are silently dropped), `summaryHasData` is false whenever
topic, user_goal, current_task, entities and decisions_made are empty —
whatever open_questions and constraints hold — and therefore the JSON
branch of `parseTargetResponse` yields no memory update for such data. -/
theorem emptiness_checks_ignore_open_constraints :
    parseMemoryBlock (str "Open: q1; q2\nConstraints: c1; c2") = none ∧
    (∀ s : Summary, s.topic = [] → s.user_goal = [] → s.current_task = [] →
      s.entities = [] → s.decisions_made = [] → summaryHasData s = false) ∧
    (∀ (jsonParse : Str → Summary) (fullText : Str) (startIdx endIdx : Nat),
      strIndexOf fullText MEMORY_START_MARKER = some startIdx →
      strIndexOf fullText MEMORY_END_MARKER = some endIdx →
      startIdx < endIdx →
      (jsTrim ((fullText.take endIdx).drop
        (startIdx + MEMORY_START_MARKER.length))).head? = some '{' →
      summaryHasData (jsonParse (jsTrim ((fullText.take endIdx).drop
        (startIdx + MEMORY_START_MARKER.length)))) = false →
      (parseTargetResponse jsonParse fullText).memoryUpdate = none) := by
  refine ⟨by decide, ?_, ?_⟩
  · intro s h1 h2 h3 h4 h5
    simp [summaryHasData, h1, h2, h3, h4, h5]
  · intro jsonParse fullText startIdx endIdx hs he hlt hb hdata
    have hft : fullText ≠ [] := by
      intro hnil
      rw [hnil] at hs
      rw [(by decide : strIndexOf ([] : Str) MEMORY_START_MARKER = none)] at hs
      exact Option.noConfusion hs
    simp only [parseTargetResponse, if_neg hft, hs, he,
      if_neg (by omega : ¬ endIdx ≤ startIdx), if_pos hb, hdata]
    rfl

/-- Witness for `emptiness_checks_ignore_open_constraints`: a JSON-marked
block whose parse carries only open questions yields no memory update. -/
theorem emptiness_checks_witness :
    summaryHasData { open_questions := [str "q"], constraints := [str "c"] } = false ∧
      (parseTargetResponse
          (fun _ => { open_questions := [str "q"], constraints := [str "c"] })
          (str "hi\n---MEMORY---\n\x7b\x22open_questions\x22: [\x22q\x22]\x7d\n---END MEMORY---")).memoryUpdate
        = none := by
  constructor
  · exact (emptiness_checks_ignore_open_constraints.2.1 _ rfl rfl rfl rfl rfl)
  · exact emptiness_checks_ignore_open_constraints.2.2
      (fun _ => { open_questions := [str "q"], constraints := [str "c"] }) _ 3 42
      (by decide) (by decide) (by decide) (by decide) (by decide)

/-!
## utils/format.js — meta-instruction filter and context-block formatter

`META_PATTERNS` is a fixed list of ten case-insensitive regular expressions
of a very restricted shape: a `\b`-delimited sequence of literal words,
whitespace gaps (`\s*` / `\s+`), literal alternations, one optional letter
(`structured?`), one optional literal group (`(provided\s+)?`, expanded
below into two alternatives with the same language) and one `.*` gap.
The matcher below implements exactly that shape over lowercased text
(`test` with the `i` flag on all-ASCII patterns is equivalent to matching
the lowercased subject against the lowercased pattern).
-/

/-- The regex word-character class `[A-Za-z0-9_]` (used for `\b`). -/
def isWordChar (c : Char) : Bool := c.isAlpha || c.isDigit || c == '_'

/-- One element of a (restricted) regex: a literal, one optional character,
`\s*`, `\s+`, a literal alternation, or `.*`. -/
inductive RItem where
  | lit : Str → RItem
  | opt : Char → RItem
  | ws0 : RItem
  | ws1 : RItem
  | alt : List Str → RItem
  | dotStar : RItem
deriving DecidableEq

/-- Remainders reachable by consuming a (possibly empty) run of whitespace. -/
def wsRemainders : Str → List Str
  | [] => [[]]
  | c :: rest => (c :: rest) :: (if c.isWhitespace then wsRemainders rest else [])

/-- Remainders reachable by `.*`: consume any run of non-newline characters. -/
def dotStarRemainders : Str → List Str
  | [] => [[]]
  | c :: rest => (c :: rest) :: (if c = '\n' then [] else dotStarRemainders rest)

/-- All remainders after matching one item at the front of `s`. -/
def matchItem : RItem → Str → List Str
  | .lit w, s => if w.isPrefixOf s then [s.drop w.length] else []
  | .opt c, s =>
    match s with
    | [] => [[]]
    | x :: rest => if x = c then [x :: rest, rest] else [x :: rest]
  | .ws0, s => wsRemainders s
  | .ws1, s =>
    match s with
    | [] => []
    | c :: rest => if c.isWhitespace then wsRemainders rest else []
  | .alt ws, s =>
    ws.filterMap (fun w => if w.isPrefixOf s then some (s.drop w.length) else none)
  | .dotStar, s => dotStarRemainders s

/-- All remainders after matching a full item sequence at the front of `s`. -/
def matchSeq : List RItem → Str → List Str
  | [], s => [s]
  | i :: is, s => (matchItem i s).flatMap (matchSeq is)

/-- The trailing `\b` of each pattern: the patterns end in a word character,
so the boundary holds iff the remainder is empty or starts with a non-word
character. -/
def endBoundary : Str → Bool
  | [] => true
  | c :: _ => !isWordChar c

/-- Search for a match of `p` at any position of `s` whose left context
(`prev`, the character before the position) satisfies the leading `\b`
(the patterns start with a word character). -/
def patSearch (p : List RItem) : Option Char → Str → Bool
  | prev, [] =>
    prev.elim true (fun c => !isWordChar c) && (matchSeq p []).any endBoundary
  | prev, c :: rest =>
    (prev.elim true (fun c => !isWordChar c) &&
        (matchSeq p (c :: rest)).any endBoundary) ||
      patSearch p (some c) rest

/-- `META_PATTERNS` from utils/format.js (the optional group of
`/\bexact\s+(provided\s+)?structure\b/i` is expanded into its two
alternatives). -/
def META_PATTERNS : List (List RItem) :=
  [ [.lit (str "json")],
    [.lit (str "structure"), .opt 'd', .ws0,
      .alt [str "output", str "format", str "data"]],
    [.lit (str "no"), .ws1, .alt [str "additional", str "extra", str "other"],
      .ws1, .lit (str "text")],
    [.lit (str "exact"), .ws1, .lit (str "structure")],
    [.lit (str "exact"), .ws1, .lit (str "provided"), .ws1, .lit (str "structure")],
    [.lit (str "valid"), .ws1, .lit (str "json")],
    [.lit (str "formatting"), .ws1, .alt [str "outside", str "beyond"]],
    [.lit (str "browser"), .ws1, .lit (str "extension")],
    [.lit (str "summariz"), .alt [str "e", str "ing"], .ws1,
      .alt [str "the", str "our", str "this"], .ws1, .lit (str "conversation")],
    [.lit (str "must"), .ws1, .lit (str "follow"), .ws1,
      .alt [str "the", str "this"], .ws1, .dotStar, .lit (str "structure")],
    [.lit (str "no"), .ws1, .lit (str "markdown")] ]

/-- `isMetaInstruction(text)` in utils/format.js. -/
def isMetaInstruction (text : Str) : Bool :=
  META_PATTERNS.any (fun p => patSearch p none (jsToLower text))

/-- One entity line of the context block:
`"- " + name + " (" + type + ")"`, plus `": " + summary` when present. -/
def entityLine (e : Entity) : Str :=
  str "- " ++ e.name ++ str " (" ++ e.type ++ str ")"
    ++ (if e.summary = [] then [] else str ": " ++ e.summary)

/-- The `Topic:` line of `formatContextBlock` (pushed when truthy). -/
def topicSection (m : Memory) : List Str :=
  if m.topic ≠ [] then [str "Topic: " ++ m.topic] else []

/-- The `User goal:` line of `formatContextBlock`. -/
def goalSection (m : Memory) : List Str :=
  if m.user_goal ≠ [] then [str "User goal: " ++ m.user_goal] else []

/-- The `Key entities:` block of `formatContextBlock`. -/
def entitiesSection (m : Memory) : List Str :=
  if m.entities ≠ [] then str "Key entities:" :: m.entities.map entityLine else []

/-- The `Decisions made:` block of `formatContextBlock` (each stored
decision has a non-empty `.text`, so `d.text || d` reads `.text`). -/
def decisionsSection (m : Memory) : List Str :=
  if m.decisions ≠ [] then
    str "Decisions made:" :: m.decisions.map (fun d => str "- " ++ d.text)
  else []

/-- The `Open questions:` block of `formatContextBlock`. -/
def openSection (m : Memory) : List Str :=
  if m.open_questions ≠ [] then
    str "Open questions:" :: m.open_questions.map (fun q => str "- " ++ q.text)
  else []

/-- The `Constraints:` block of `formatContextBlock`: constraints are passed
through the meta-instruction filter, and the header appears only when a
constraint survives. -/
def constraintsSection (m : Memory) : List Str :=
  if m.constraints ≠ [] then
    if m.constraints.filter (fun c => !isMetaInstruction c) ≠ [] then
      str "Constraints:"
        :: (m.constraints.filter (fun c => !isMetaInstruction c)).map
          (fun c => str "- " ++ c)
    else []
  else []

/-- The task after sanitization (lines 367–370 of utils/format.js):
a truthy `current_task` matching the meta filter is dropped. -/
def sanitizedTask (m : Memory) : Str :=
  let task := m.current_task
  if task ≠ [] ∧ isMetaInstruction task then [] else task

/-- The `Current task:` line of `formatContextBlock`. -/
def taskSection (m : Memory) : List Str :=
  if sanitizedTask m ≠ [] then [str "Current task: " ++ sanitizedTask m] else []

/-- The task-specific instruction (or the task-free fallback). -/
def continueSection (m : Memory) : List Str :=
  if sanitizedTask m ≠ [] then
    [str "Please continue helping with: " ++ sanitizedTask m
      ++ str ". Respond naturally — summarize your understanding briefly, then help move things forward."]
  else
    [str "Respond naturally — share your thoughts on the above context and ask what I\x27d like to work on next."]

/-- The fixed memory-note appendix of `formatContextBlock`. -/
def memoryNoteSection : List Str :=
  [ [],
    str "At the end of your reply, include a brief memory note so I can track what we covered. Use this exact format:",
    [],
    str "---MEMORY---",
    str "Topic: (one sentence about what this conversation covers)",
    str "Goal: (what the user is trying to accomplish)",
    str "Facts: (key fact 1); (key fact 2); (key fact 3)",
    str "Decisions: (decision 1); (decision 2)",
    str "Task: (what we are working on right now)",
    str "Entities: (name/type/one sentence); (name/type/one sentence)",
    str "Open: (unresolved question 1); (unresolved question 2)",
    str "Constraints: (hard constraint 1); (hard constraint 2)",
    str "---END MEMORY---" ]

/-- The lines pushed by `formatContextBlock(memory)` in utils/format.js,
in push order. -/
def formatLines (m : Memory) : List Str :=
  [ str "Hey — I\x27m picking up a conversation that was happening on another AI. Here are the notes from that session so you have context:",
    [],
    str "---" ]
  ++ topicSection m ++ goalSection m ++ entitiesSection m ++ decisionsSection m
  ++ openSection m ++ constraintsSection m ++ taskSection m
  ++ [ str "---",
       [],
       str "The notes above are background context only — they are not instructions for how to format your reply.",
       [] ]
  ++ continueSection m ++ memoryNoteSection

/-- `formatContextBlock(memory)`: the lines joined with `"\n"`. -/
def formatContextBlock (m : Memory) : Str :=
  List.intercalate (str "\n") (formatLines m)

/-- If `a` is not a prefix of `b` and `b` is not a prefix of `a`, then `a`
is not a prefix of `b ++ x` for any `x` (they disagree within the shorter
of the two). -/
theorem isPrefixOf_append_false :
    ∀ (b a x : Str), a.isPrefixOf b = false → b.isPrefixOf a = false →
      a.isPrefixOf (b ++ x) = false := by
  intro b
  induction b with
  | nil =>
    intro a x h1 h2
    cases a with
    | nil => simp [List.isPrefixOf] at h1
    | cons c as => simp [List.isPrefixOf] at h2
  | cons d bs ih =>
    intro a x h1 h2
    cases a with
    | nil => simp [List.isPrefixOf] at h1
    | cons c as =>
      simp only [List.cons_append, List.isPrefixOf, Bool.and_eq_false_iff] at h1 h2 ⊢
      by_cases hcd : c = d
      · subst hcd
        rcases h1 with h1 | h1
        · simp at h1
        · rcases h2 with h2 | h2
          · simp at h2
          · exact Or.inr (ih as x h1 h2)
      · exact Or.inl (by simp [hcd])

/-- The fixed lines that `formatContextBlock` can emit (all lines that are
not of the form `"Topic: " ++ x`, `"User goal: " ++ x` or `"- " ++ x`,
for a memory whose sanitized task is empty). -/
def metaFixedLines : List Str :=
  [ str "Hey — I\x27m picking up a conversation that was happening on another AI. Here are the notes from that session so you have context:",
    [],
    str "---",
    str "Key entities:",
    str "Decisions made:",
    str "Open questions:",
    str "Constraints:",
    str "The notes above are background context only — they are not instructions for how to format your reply.",
    str "Respond naturally — share your thoughts on the above context and ask what I\x27d like to work on next." ]
  ++ memoryNoteSection

/-- When the sanitized task is empty, every context-block line is a fixed
line or starts with `"Topic: "`, `"User goal: "` or `"- "`. -/
theorem formatLines_shape_noTask (m : Memory) (h : sanitizedTask m = []) :
    ∀ line ∈ formatLines m, line ∈ metaFixedLines ∨
      (∃ x, line = str "Topic: " ++ x) ∨ (∃ x, line = str "User goal: " ++ x) ∨
      (∃ x, line = str "- " ++ x) := by
  intro line hl
  rw [formatLines] at hl
  rcases List.mem_append.mp hl with hl | hl
  rcases List.mem_append.mp hl with hl | hl
  rcases List.mem_append.mp hl with hl | hl
  rcases List.mem_append.mp hl with hl | hl
  rcases List.mem_append.mp hl with hl | hl
  rcases List.mem_append.mp hl with hl | hl
  rcases List.mem_append.mp hl with hl | hl
  rcases List.mem_append.mp hl with hl | hl
  rcases List.mem_append.mp hl with hl | hl
  rcases List.mem_append.mp hl with hl | hl
  -- goal order: the ten chunks front to back, then memoryNoteSection
  · simp only [List.mem_cons, List.not_mem_nil, or_false] at hl
    rcases hl with rfl | rfl | rfl
    · exact Or.inl (by decide)
    · exact Or.inl (by decide)
    · exact Or.inl (by decide)
  · rw [topicSection] at hl
    split at hl
    · rcases List.mem_singleton.mp hl with rfl
      exact Or.inr (Or.inl ⟨m.topic, rfl⟩)
    · simp at hl
  · rw [goalSection] at hl
    split at hl
    · rcases List.mem_singleton.mp hl with rfl
      exact Or.inr (Or.inr (Or.inl ⟨m.user_goal, rfl⟩))
    · simp at hl
  · rw [entitiesSection] at hl
    split at hl
    · rcases List.mem_cons.mp hl with rfl | hl
      · exact Or.inl (by decide)
      · obtain ⟨e, _, rfl⟩ := List.mem_map.mp hl
        exact Or.inr (Or.inr (Or.inr
          ⟨e.name ++ str " (" ++ e.type ++ str ")"
            ++ (if e.summary = [] then [] else str ": " ++ e.summary), rfl⟩))
    · simp at hl
  · rw [decisionsSection] at hl
    split at hl
    · rcases List.mem_cons.mp hl with rfl | hl
      · exact Or.inl (by decide)
      · obtain ⟨d, _, rfl⟩ := List.mem_map.mp hl
        exact Or.inr (Or.inr (Or.inr ⟨d.text, rfl⟩))
    · simp at hl
  · rw [openSection] at hl
    split at hl
    · rcases List.mem_cons.mp hl with rfl | hl
      · exact Or.inl (by decide)
      · obtain ⟨q, _, rfl⟩ := List.mem_map.mp hl
        exact Or.inr (Or.inr (Or.inr ⟨q.text, rfl⟩))
    · simp at hl
  · rw [constraintsSection] at hl
    split at hl
    · split at hl
      · rcases List.mem_cons.mp hl with rfl | hl
        · exact Or.inl (by decide)
        · obtain ⟨c, _, rfl⟩ := List.mem_map.mp hl
          exact Or.inr (Or.inr (Or.inr ⟨c, rfl⟩))
      · simp at hl
    · simp at hl
  · rw [taskSection, h, if_neg (show ¬ (([] : Str) ≠ []) by simp)] at hl
    simp at hl
  · simp only [List.mem_cons, List.not_mem_nil, or_false] at hl
    rcases hl with rfl | rfl | rfl | rfl
    · exact Or.inl (by decide)
    · exact Or.inl (by decide)
    · exact Or.inl (by decide)
    · exact Or.inl (by decide)
  · rw [continueSection, h, if_neg (show ¬ (([] : Str) ≠ []) by simp)] at hl
    rcases List.mem_singleton.mp hl with rfl
    exact Or.inl (by decide)
  · exact Or.inl (List.mem_append_right _ hl)

/-- C7.  The meta-instruction filter in `formatContextBlock`: a constraint
matching one of the `META_PATTERNS` is never serialized into the
`Constraints:` block, and a `current_task` matching one of them is dropped
entirely — the output equals the output for the task-cleared memory, and no
output line starts with `"Current task: "` or with
`"Please continue helping with: "` (the task-specific instruction). -/
theorem formatContextBlock_meta_filter (m : Memory) :
    (∀ c ∈ m.constraints, isMetaInstruction c = true →
      (str "- " ++ c) ∉ constraintsSection m) ∧
    (isMetaInstruction m.current_task = true →
      formatLines m = formatLines { m with current_task := [] } ∧
      ∀ line ∈ formatLines m,
        (str "Current task: ").isPrefixOf line = false ∧
        (str "Please continue helping with: ").isPrefixOf line = false) := by
  constructor
  · intro c hc hmeta hmem
    rw [constraintsSection] at hmem
    split at hmem
    · split at hmem
      · rcases List.mem_cons.mp hmem with heq | hmem
        · have hhead := congrArg (fun l => l.head?) heq
          simp [str] at hhead
        · obtain ⟨c', hc', heq⟩ := List.mem_map.mp hmem
          have hcc : c' = c := List.append_cancel_left heq
          subst hcc
          have := (List.mem_filter.mp hc').2
          rw [hmeta] at this
          simp at this
      · simp at hmem
    · simp at hmem
  · intro hmeta
    have h1 : sanitizedTask m = [] := by
      rw [sanitizedTask]
      by_cases ht : m.current_task = []
      · rw [if_neg (by simp [ht])]
        exact ht
      · rw [if_pos ⟨ht, hmeta⟩]
    have h2 : sanitizedTask { m with current_task := [] } = [] := by
      rw [sanitizedTask]
      simp
    constructor
    · simp only [formatLines, topicSection, goalSection, entitiesSection,
        decisionsSection, openSection, constraintsSection, taskSection,
        continueSection, h1, h2]
    · intro line hl
      rcases formatLines_shape_noTask m h1 line hl with hfix | ⟨x, rfl⟩ | ⟨x, rfl⟩ | ⟨x, rfl⟩
      · have : ∀ l ∈ metaFixedLines,
            (str "Current task: ").isPrefixOf l = false ∧
              (str "Please continue helping with: ").isPrefixOf l = false := by decide
        exact this line hfix
      · exact ⟨isPrefixOf_append_false _ _ _ (by decide) (by decide),
          isPrefixOf_append_false _ _ _ (by decide) (by decide)⟩
      · exact ⟨isPrefixOf_append_false _ _ _ (by decide) (by decide),
          isPrefixOf_append_false _ _ _ (by decide) (by decide)⟩
      · exact ⟨isPrefixOf_append_false _ _ _ (by decide) (by decide),
          isPrefixOf_append_false _ _ _ (by decide) (by decide)⟩

/-- A memory carrying one meta constraint, one real constraint and a meta
current task, for the C7 witness. -/
def memMeta : Memory :=
  { createEmptyMemory (str "c7") 0 with
    constraints := [str "reply with valid json", str "budget is 100 dollars"]
    current_task := str "summarize the conversation into json" }

/-- Witness for `formatContextBlock_meta_filter` on `memMeta`. -/
theorem formatContextBlock_meta_filter_witness :
    isMetaInstruction (str "reply with valid json") = true ∧
      (str "- " ++ str "reply with valid json") ∉ constraintsSection memMeta ∧
      isMetaInstruction memMeta.current_task = true ∧
      formatLines memMeta = formatLines { memMeta with current_task := [] } :=
  ⟨by decide,
    (formatContextBlock_meta_filter memMeta).1 _ (by decide) (by decide),
    by decide,
    ((formatContextBlock_meta_filter memMeta).2 (by decide)).1⟩

/-!
## The response quiescence detector

`waitForTargetResponse` (content/chatgpt.js) and `waitForDeepSeekResponse` /
`waitForPerplexityResponse` (content/deepseek.js, content/perplexity.js) are
character-for-character identical up to the error message, so one embedding
covers all of them.  The DOM polling loop is embedded over the sequence of
sampled texts: `sampler t` is `scopeEl.innerText` at the `t`-th 500 ms tick.
The timeout check `elapsed >= TIMEOUT_MS` at the top of tick `t` (with
`elapsed = 500·t`) rejects exactly at tick 180, so the run processes at most
`TIMEOUT_MS / POLL_MS` samples.
-/

/-- `POLL_MS` in the wait functions. -/
def POLL_MS : Nat := 500

/-- `STABLE_NEEDED` in the wait functions. -/
def STABLE_NEEDED : Nat := 4

/-- `MIN_NEW_CHARS` in the wait functions. -/
def MIN_NEW_CHARS : Nat := 50

/-- `TIMEOUT_MS` in the wait functions. -/
def TIMEOUT_MS : Nat := 90000

/-- Number of polling ticks before the timeout check fires. -/
def maxTicks : Nat := TIMEOUT_MS / POLL_MS

/-- The lines of the new content after slicing and trimming:
`raw.split("\n").map(trim)` where `raw = afterText.slice(before.length).trim()`. -/
def responseLines (beforeText afterText : Str) : List Str :=
  ((jsTrim (afterText.drop beforeText.length)).splitOn '\n').map jsTrim

/-- The lines surviving the length filter `line.length > 10`. -/
def keptLines (beforeText afterText : Str) : List Str :=
  (responseLines beforeText afterText).filter (fun l => l.length > 10)

/-- `extractResponse(beforeText, afterText)` (identical in
content/chatgpt.js as `extractTargetResponse`, content/deepseek.js and
content/perplexity.js as `extractResponse`). -/
def extractResponse (beforeText afterText : Str) : Str :=
  jsTrim (List.intercalate (str "\n") (keptLines beforeText afterText))

/-- Outcome of the polling loop: the promise resolves with the extracted
response or rejects with the timeout error. -/
inductive DetectOutcome where
  | success : Str → DetectOutcome
  | timedOut : DetectOutcome
deriving DecidableEq

/-- The mutable state of the polling loop (`phase`, `lastLength`,
`stableCount`). -/
structure DetectorState where
  phase2 : Bool
  lastLength : Nat
  stableCount : Nat
deriving DecidableEq

/-- The state at promise creation: phase 1,
`lastLength = scopeEl.innerText.length` (never read before being
overwritten at the phase transition), `stableCount = 0`. -/
def initialDetectorState (snapshot : Str) : DetectorState :=
  { phase2 := false, lastLength := snapshot.length, stableCount := 0 }

/-- The body of one `tick()` (after the timeout check): either a new state
or resolution with the extracted response. -/
def tickStep (snapshot : Str) (st : DetectorState) (sample : Str) :
    DetectorState ⊕ Str :=
  if st.phase2 = false then
    if sample.length > snapshot.length + MIN_NEW_CHARS then
      Sum.inl { phase2 := true, lastLength := sample.length, stableCount := st.stableCount }
    else Sum.inl st
  else
    if sample.length = st.lastLength then
      if st.stableCount + 1 ≥ STABLE_NEEDED then Sum.inr (extractResponse snapshot sample)
      else Sum.inl { st with stableCount := st.stableCount + 1 }
    else Sum.inl { st with stableCount := 0, lastLength := sample.length }

/-- Run the polling loop: `fuel` ticks remain, the current tick index is
`t`; exhausted fuel is the `elapsed >= TIMEOUT_MS` rejection. -/
def detectAux (snapshot : Str) (sampler : Nat → Str) :
    Nat → DetectorState → Nat → DetectOutcome
  | 0, _, _ => DetectOutcome.timedOut
  | fuel + 1, st, t =>
    match tickStep snapshot st (sampler t) with
    | Sum.inr r => DetectOutcome.success r
    | Sum.inl st2 => detectAux snapshot sampler fuel st2 (t + 1)

/-- `waitForTargetResponse(scopeEl, snapshot)` over the sample sequence. -/
def waitForTargetResponse (snapshot : Str) (sampler : Nat → Str) : DetectOutcome :=
  detectAux snapshot sampler maxTicks (initialDetectorState snapshot) 0

/-- Unfolding one tick of the loop. -/
theorem detectAux_succ (snapshot : Str) (sampler : Nat → Str) (fuel : Nat)
    (st : DetectorState) (t : Nat) :
    detectAux snapshot sampler (fuel + 1) st t
      = match tickStep snapshot st (sampler t) with
        | Sum.inr r => DetectOutcome.success r
        | Sum.inl st2 => detectAux snapshot sampler fuel st2 (t + 1) := rfl

/-- A growing sample moves phase 1 to phase 2 and records its length. -/
theorem tickStep_phase1_growth (snapshot sample : Str) (st : DetectorState)
    (hph : st.phase2 = false)
    (hg : sample.length > snapshot.length + MIN_NEW_CHARS) :
    tickStep snapshot st sample
      = Sum.inl ⟨true, sample.length, st.stableCount⟩ := by
  rw [tickStep, if_pos hph, if_pos hg]

/-- A non-growing sample leaves phase 1 unchanged. -/
theorem tickStep_phase1_wait (snapshot sample : Str) (st : DetectorState)
    (hph : st.phase2 = false)
    (hg : ¬ sample.length > snapshot.length + MIN_NEW_CHARS) :
    tickStep snapshot st sample = Sum.inl st := by
  rw [tickStep, if_pos hph, if_neg hg]

/-- In phase 2 a sample of the recorded length bumps the stability count. -/
theorem tickStep_phase2_count (snapshot sample : Str) (L c : Nat)
    (hlen : sample.length = L) (hc : c + 1 < STABLE_NEEDED) :
    tickStep snapshot ⟨true, L, c⟩ sample = Sum.inl ⟨true, L, c + 1⟩ := by
  rw [tickStep]
  dsimp only
  rw [if_neg (by decide), if_pos hlen, if_neg (by omega)]

/-- In phase 2 the sample that completes the stability run resolves the
loop with the extraction. -/
theorem tickStep_phase2_done (snapshot sample : Str) (L c : Nat)
    (hlen : sample.length = L) (hc : c + 1 ≥ STABLE_NEEDED) :
    tickStep snapshot ⟨true, L, c⟩ sample
      = Sum.inr (extractResponse snapshot sample) := by
  rw [tickStep]
  dsimp only
  rw [if_neg (by decide), if_pos hlen, if_pos hc]

/-- While no sample exceeds the growth threshold, the loop stays in phase 1
with an unchanged state: running `fuel` ticks from tick `t` equals running
`fuel - k` ticks from tick `t + k`. -/
theorem detectAux_phase1_skip (snapshot : Str) (sampler : Nat → Str) :
    ∀ (k fuel t : Nat) (st : DetectorState), st.phase2 = false →
      (∀ i, t ≤ i → i < t + k →
        ¬ ((sampler i).length > snapshot.length + MIN_NEW_CHARS)) →
      k ≤ fuel →
      detectAux snapshot sampler fuel st t
        = detectAux snapshot sampler (fuel - k) st (t + k) := by
  intro k
  induction k with
  | zero => intro fuel t st _ _ _; rfl
  | succ k ih =>
    intro fuel t st hph hng hk
    cases fuel with
    | zero => omega
    | succ f =>
      rw [detectAux_succ,
        tickStep_phase1_wait snapshot (sampler t) st hph (hng t (le_refl t) (by omega))]
      have hrec := ih f (t + 1) st hph
        (fun i h1 h2 => hng i (by omega) (by omega)) (by omega)
      show detectAux snapshot sampler f st (t + 1) = _
      rw [hrec, (by omega : f - k = f + 1 - (k + 1)), (by omega : t + 1 + k = t + (k + 1))]

/-- In phase 2 a mismatching sample resets the count and re-records the
length. -/
theorem tickStep_phase2_reset (snapshot sample : Str) (L c : Nat)
    (hlen : sample.length ≠ L) :
    tickStep snapshot ⟨true, L, c⟩ sample = Sum.inl ⟨true, sample.length, 0⟩ := by
  rw [tickStep]
  dsimp only
  rw [if_neg (by decide), if_neg hlen]

/-- Phase 2 is absorbing: a tick that does not resolve stays in phase 2. -/
theorem tickStep_phase2_absorb (snapshot sample : Str) (st st2 : DetectorState)
    (hp : st.phase2 = true) (hstep : tickStep snapshot st sample = Sum.inl st2) :
    st2.phase2 = true := by
  rw [tickStep] at hstep
  rw [if_neg (by rw [hp]; simp)] at hstep
  by_cases hlen : sample.length = st.lastLength
  · rw [if_pos hlen] at hstep
    by_cases hc : st.stableCount + 1 ≥ STABLE_NEEDED
    · rw [if_pos hc] at hstep
      exact absurd hstep (by simp)
    · rw [if_neg hc] at hstep
      have heq := Sum.inl.inj hstep
      rw [← heq]
      exact hp
  · rw [if_neg hlen] at hstep
    have heq := Sum.inl.inj hstep
    rw [← heq]
    exact hp

/-- One growth tick, in run form. -/
theorem detect_step_growth (snapshot : Str) (sampler : Nat → Str) (fu t : Nat)
    (st : DetectorState) (hph : st.phase2 = false)
    (hg : (sampler t).length > snapshot.length + MIN_NEW_CHARS) :
    detectAux snapshot sampler (fu + 1) st t
      = detectAux snapshot sampler fu
        ⟨true, (sampler t).length, st.stableCount⟩ (t + 1) := by
  rw [detectAux_succ, tickStep_phase1_growth snapshot (sampler t) st hph hg]

/-- One waiting phase-1 tick, in run form. -/
theorem detect_step_wait (snapshot : Str) (sampler : Nat → Str) (fu t : Nat)
    (st : DetectorState) (hph : st.phase2 = false)
    (hg : ¬ (sampler t).length > snapshot.length + MIN_NEW_CHARS) :
    detectAux snapshot sampler (fu + 1) st t
      = detectAux snapshot sampler fu st (t + 1) := by
  rw [detectAux_succ, tickStep_phase1_wait snapshot (sampler t) st hph hg]

/-- One counting phase-2 tick, in run form. -/
theorem detect_step_count (snapshot : Str) (sampler : Nat → Str) (fu t L c : Nat)
    (hlen : (sampler t).length = L) (hc : c + 1 < STABLE_NEEDED) :
    detectAux snapshot sampler (fu + 1) ⟨true, L, c⟩ t
      = detectAux snapshot sampler fu ⟨true, L, c + 1⟩ (t + 1) := by
  rw [detectAux_succ, tickStep_phase2_count snapshot (sampler t) L c hlen hc]

/-- One resetting phase-2 tick, in run form. -/
theorem detect_step_reset (snapshot : Str) (sampler : Nat → Str) (fu t L c : Nat)
    (hlen : (sampler t).length ≠ L) :
    detectAux snapshot sampler (fu + 1) ⟨true, L, c⟩ t
      = detectAux snapshot sampler fu ⟨true, (sampler t).length, 0⟩ (t + 1) := by
  rw [detectAux_succ, tickStep_phase2_reset snapshot (sampler t) L c hlen]

/-- The resolving phase-2 tick, in run form. -/
theorem detect_step_done (snapshot : Str) (sampler : Nat → Str) (fu t L c : Nat)
    (hlen : (sampler t).length = L) (hc : c + 1 ≥ STABLE_NEEDED) :
    detectAux snapshot sampler (fu + 1) ⟨true, L, c⟩ t
      = DetectOutcome.success (extractResponse snapshot (sampler t)) := by
  rw [detectAux_succ, tickStep_phase2_done snapshot (sampler t) L c hlen hc]

/-- Forward direction of the success characterization: if a run resolves
successfully, the sampler has a stable-length window — some tick `w`, with
growth already observed at or before `w`, whose next four samples all have
the length of sample `w` — inside the fuel budget.  The phase-2 invariant:
`stableCount` many consecutive samples before `t` matched `lastLength`, the
sample just before them recorded it, and growth happened at or before that
sample. -/
theorem detect_success_window (snapshot : Str) (sampler : Nat → Str) :
    ∀ (fuel t : Nat) (st : DetectorState) (r : Str),
      (st.phase2 = false → st.stableCount = 0) →
      (st.phase2 = true →
        st.stableCount + 1 ≤ t ∧
        (∃ g, g + st.stableCount + 1 ≤ t ∧
          (sampler g).length > snapshot.length + MIN_NEW_CHARS) ∧
        (∀ j, t - st.stableCount - 1 ≤ j → j < t →
          (sampler j).length = st.lastLength)) →
      detectAux snapshot sampler fuel st t = DetectOutcome.success r →
      ∃ w, w + 4 < t + fuel ∧
        (∃ g, g ≤ w ∧ (sampler g).length > snapshot.length + MIN_NEW_CHARS) ∧
        (∀ i, i ≤ 4 → (sampler (w + i)).length = (sampler w).length) := by
  intro fuel
  induction fuel with
  | zero =>
    intro t st r _ _ hrun
    exact absurd hrun (by
      rw [show detectAux snapshot sampler 0 st t = DetectOutcome.timedOut from rfl]
      simp)
  | succ f ih =>
    intro t st r hph1 hph2 hrun
    obtain ⟨ph, L, c⟩ := st
    cases ph with
    | false =>
      have hc0 : c = 0 := hph1 rfl
      subst hc0
      by_cases hg : (sampler t).length > snapshot.length + MIN_NEW_CHARS
      · rw [detect_step_growth snapshot sampler f t ⟨false, L, 0⟩ rfl hg] at hrun
        obtain ⟨w, hw1, hw2, hw3⟩ := ih (t + 1) ⟨true, (sampler t).length, 0⟩ r
          (by intro h; exact Bool.noConfusion h)
          (by intro _
              refine ⟨(by omega : 0 + 1 ≤ t + 1), ⟨t, (by omega : t + 0 + 1 ≤ t + 1), hg⟩, ?_⟩
              intro j hj1 hj2
              have hj1a : t + 1 - 0 - 1 ≤ j := hj1
              have hjt : j = t := by omega
              rw [hjt])
          hrun
        exact ⟨w, by omega, hw2, hw3⟩
      · rw [detect_step_wait snapshot sampler f t ⟨false, L, 0⟩ rfl hg] at hrun
        obtain ⟨w, hw1, hw2, hw3⟩ := ih (t + 1) ⟨false, L, 0⟩ r (fun _ => rfl)
          (by intro h; exact Bool.noConfusion h) hrun
        exact ⟨w, by omega, hw2, hw3⟩
    | true =>
      obtain ⟨hct0, ⟨g, hg10, hg2⟩, hwinv0⟩ := hph2 rfl
      have hct : c + 1 ≤ t := hct0
      have hg1 : g + c + 1 ≤ t := hg10
      have hwinv : ∀ j, t - c - 1 ≤ j → j < t → (sampler j).length = L := hwinv0
      by_cases hlen : (sampler t).length = L
      · by_cases hdone : c + 1 ≥ STABLE_NEEDED
        · have hsn : STABLE_NEEDED = 4 := rfl
          have hc3 : 3 ≤ c := by omega
          have hall : ∀ j, t - c - 1 ≤ j → j ≤ t → (sampler j).length = L := by
            intro j h1 h2
            by_cases hjt : j = t
            · rw [hjt]; exact hlen
            · exact hwinv j h1 (by omega)
          refine ⟨t - 4, by omega, ⟨g, by omega, hg2⟩, ?_⟩
          intro i hi
          rw [hall (t - 4 + i) (by omega) (by omega), hall (t - 4) (by omega) (by omega)]
        · rw [detect_step_count snapshot sampler f t L c hlen (by omega)] at hrun
          obtain ⟨w, hw1, hw2, hw3⟩ := ih (t + 1) ⟨true, L, c + 1⟩ r
            (by intro h; exact Bool.noConfusion h)
            (by intro _
                refine ⟨(by omega : c + 1 + 1 ≤ t + 1),
                  ⟨g, (by omega : g + (c + 1) + 1 ≤ t + 1), hg2⟩, ?_⟩
                intro j hj1 hj2
                have hj1a : t + 1 - (c + 1) - 1 ≤ j := hj1
                have hj2a : j < t + 1 := hj2
                by_cases hjt : j = t
                · rw [hjt]; exact hlen
                · exact hwinv j (by omega) (by omega))
            hrun
          exact ⟨w, by omega, hw2, hw3⟩
      · rw [detect_step_reset snapshot sampler f t L c hlen] at hrun
        obtain ⟨w, hw1, hw2, hw3⟩ := ih (t + 1) ⟨true, (sampler t).length, 0⟩ r
          (by intro h; exact Bool.noConfusion h)
          (by intro _
              refine ⟨(by omega : 0 + 1 ≤ t + 1), ⟨g, (by omega : g + 0 + 1 ≤ t + 1), hg2⟩, ?_⟩
              intro j hj1 hj2
              have hj1a : t + 1 - 0 - 1 ≤ j := hj1
              have hjt : j = t := by omega
              rw [hjt])
          hrun
        exact ⟨w, by omega, hw2, hw3⟩

/-- Once in phase 2 at tick `w + 1` with `lastLength` the length of sample
`w`, four more equal-length samples force a resolution (possibly earlier,
if the count was already high). -/
theorem detect_stability_finish (snapshot : Str) (sampler : Nat → Str) (w : Nat)
    (hwin : ∀ i, i ≤ 4 → (sampler (w + i)).length = (sampler w).length) :
    ∀ (c fuel : Nat), 4 ≤ fuel →
      ∃ r, detectAux snapshot sampler fuel ⟨true, (sampler w).length, c⟩ (w + 1)
        = DetectOutcome.success r := by
  intro c fuel hfuel
  obtain ⟨f, rfl⟩ : ∃ f, fuel = f + 3 + 1 := ⟨fuel - 4, by omega⟩
  have h1 := hwin 1 (by omega)
  have h2 := hwin 2 (by omega)
  have h3 := hwin 3 (by omega)
  have h4 := hwin 4 (by omega)
  by_cases hc1 : c + 1 ≥ STABLE_NEEDED
  · exact ⟨_, detect_step_done snapshot sampler (f + 3) (w + 1) _ c h1 hc1⟩
  · rw [detect_step_count snapshot sampler (f + 3) (w + 1) _ c h1 (by omega),
      (by omega : w + 1 + 1 = w + 2), (by omega : f + 3 = f + 2 + 1)]
    by_cases hc2 : c + 1 + 1 ≥ STABLE_NEEDED
    · exact ⟨_, detect_step_done snapshot sampler (f + 2) (w + 2) _ (c + 1) h2 hc2⟩
    · rw [detect_step_count snapshot sampler (f + 2) (w + 2) _ (c + 1) h2 (by omega),
        (by omega : w + 2 + 1 = w + 3), (by omega : f + 2 = f + 1 + 1)]
      by_cases hc3 : c + 1 + 1 + 1 ≥ STABLE_NEEDED
      · exact ⟨_, detect_step_done snapshot sampler (f + 1) (w + 3) _ (c + 1 + 1) h3 hc3⟩
      · rw [detect_step_count snapshot sampler (f + 1) (w + 3) _ (c + 1 + 1) h3 (by omega),
          (by omega : w + 3 + 1 = w + 4), (by omega : f + 1 = f + 0 + 1)]
        exact ⟨_, detect_step_done snapshot sampler (f + 0) (w + 4) _ (c + 1 + 1 + 1) h4
          (by have hsn : STABLE_NEEDED = 4 := rfl; omega)⟩

/-- Backward direction of the success characterization: a stable-length
window at `w` (growth by `w`, four following samples of the same length)
within the fuel budget forces a successful resolution, from any state that
has not yet passed the growth sample. -/
theorem detect_window_reach (snapshot : Str) (sampler : Nat → Str) (w g : Nat)
    (hgw : g ≤ w)
    (hgrow : (sampler g).length > snapshot.length + MIN_NEW_CHARS)
    (hwin : ∀ i, i ≤ 4 → (sampler (w + i)).length = (sampler w).length) :
    ∀ (k fuel t : Nat) (st : DetectorState), t + k = w → w + 5 ≤ t + fuel →
      (st.phase2 = false → t ≤ g) →
      ∃ r, detectAux snapshot sampler fuel st t = DetectOutcome.success r := by
  intro k
  induction k with
  | zero =>
    intro fuel t st htk hfuel hinv
    obtain rfl : t = w := by omega
    obtain ⟨f, rfl⟩ : ∃ f, fuel = f + 4 + 1 := ⟨fuel - 5, by omega⟩
    obtain ⟨ph, L, c⟩ := st
    cases ph with
    | false =>
      have htg : t ≤ g := hinv rfl
      have hgroww : (sampler t).length > snapshot.length + MIN_NEW_CHARS := by
        rw [show t = g by omega]
        exact hgrow
      rw [detect_step_growth snapshot sampler (f + 4) t ⟨false, L, c⟩ rfl hgroww]
      exact detect_stability_finish snapshot sampler t hwin c (f + 4) (by omega)
    | true =>
      by_cases hlen : (sampler t).length = L
      · subst hlen
        by_cases hc : c + 1 ≥ STABLE_NEEDED
        · exact ⟨_, detect_step_done snapshot sampler (f + 4) t _ c rfl hc⟩
        · rw [detect_step_count snapshot sampler (f + 4) t _ c rfl (by omega)]
          exact detect_stability_finish snapshot sampler t hwin (c + 1) (f + 4) (by omega)
      · rw [detect_step_reset snapshot sampler (f + 4) t L c hlen]
        exact detect_stability_finish snapshot sampler t hwin 0 (f + 4) (by omega)
  | succ k ih =>
    intro fuel t st htk hfuel hinv
    obtain ⟨f, rfl⟩ : ∃ f, fuel = f + 1 := ⟨fuel - 1, by omega⟩
    obtain ⟨ph, L, c⟩ := st
    cases ph with
    | false =>
      by_cases hg2 : (sampler t).length > snapshot.length + MIN_NEW_CHARS
      · rw [detect_step_growth snapshot sampler f t ⟨false, L, c⟩ rfl hg2]
        exact ih f (t + 1) ⟨true, (sampler t).length, c⟩ (by omega) (by omega)
          (by intro h; exact Bool.noConfusion h)
      · rw [detect_step_wait snapshot sampler f t ⟨false, L, c⟩ rfl hg2]
        refine ih f (t + 1) ⟨false, L, c⟩ (by omega) (by omega) ?_
        intro _
        have htg : t ≤ g := hinv rfl
        have hne : t ≠ g := fun he => hg2 (by rw [he]; exact hgrow)
        omega
    | true =>
      cases htick : tickStep snapshot ⟨true, L, c⟩ (sampler t) with
      | inr r0 =>
        refine ⟨r0, ?_⟩
        rw [detectAux_succ, htick]
      | inl st2 =>
        have hp2 : st2.phase2 = true :=
          tickStep_phase2_absorb snapshot (sampler t) ⟨true, L, c⟩ st2 rfl htick
        rw [detectAux_succ, htick]
        show ∃ r, detectAux snapshot sampler f st2 (t + 1) = DetectOutcome.success r
        exact ih f (t + 1) st2 (by omega) (by omega)
          (by intro h; rw [h] at hp2; exact Bool.noConfusion hp2)

set_option maxRecDepth 4000 in
/-- C6 (amended).  The detector leaves phase 1 exactly when the length of a
sample exceeds the snapshot length by more than `MIN_NEW_CHARS = 50`
(baseline 100: a 140-character sample does not end phase 1, a 170-character
one does); it then succeeds *exactly* when — within the
`maxTicks = 180`-tick budget (90 s at 500 ms) — the length of the sampled
text, not its bytes,
is unchanged across 4 consecutive samples: some
tick `w` with growth already observed at or before `w` is followed by four
samples of the same length, with `w + 4` still inside the budget.  If no
sample ever exceeds the growth threshold, the run rejects with the
timeout. -/
theorem detector_phase_behavior :
    (∀ (snapshot sample : Str) (st : DetectorState), st.phase2 = false →
      ((∃ st2, tickStep snapshot st sample = Sum.inl st2 ∧ st2.phase2 = true) ↔
        sample.length > snapshot.length + MIN_NEW_CHARS)) ∧
    (tickStep (List.replicate 100 'a') (initialDetectorState (List.replicate 100 'a'))
        (List.replicate 140 'b')
      = Sum.inl (initialDetectorState (List.replicate 100 'a'))) ∧
    (tickStep (List.replicate 100 'a') (initialDetectorState (List.replicate 100 'a'))
        (List.replicate 170 'b')
      = Sum.inl { phase2 := true, lastLength := 170, stableCount := 0 }) ∧
    (∀ (snapshot : Str) (sampler : Nat → Str),
      (∃ r, waitForTargetResponse snapshot sampler = DetectOutcome.success r) ↔
        (∃ w, w + 4 < maxTicks ∧
          (∃ g, g ≤ w ∧ (sampler g).length > snapshot.length + MIN_NEW_CHARS) ∧
          (∀ i, i ≤ 4 → (sampler (w + i)).length = (sampler w).length))) ∧
    (∀ (snapshot : Str) (sampler : Nat → Str),
      (∀ t, ¬ ((sampler t).length > snapshot.length + MIN_NEW_CHARS)) →
      waitForTargetResponse snapshot sampler = DetectOutcome.timedOut) := by
  refine ⟨?_, by decide, by decide, ?_, ?_⟩
  · intro snapshot sample st hph
    constructor
    · rintro ⟨st2, hstep, hst2⟩
      by_contra hng
      rw [tickStep_phase1_wait snapshot sample st hph hng] at hstep
      have heq : st = st2 := Sum.inl.inj hstep
      rw [← heq, hph] at hst2
      exact Bool.noConfusion hst2
    · intro hg
      exact ⟨_, tickStep_phase1_growth snapshot sample st hph hg, rfl⟩
  · intro snapshot sampler
    constructor
    · rintro ⟨r, hr⟩
      obtain ⟨w, hw1, hw2, hw3⟩ := detect_success_window snapshot sampler maxTicks 0
        (initialDetectorState snapshot) r (fun _ => rfl)
        (by intro h; exact Bool.noConfusion h) hr
      exact ⟨w, by omega, hw2, hw3⟩
    · rintro ⟨w, hw1, ⟨g, hg1, hg2⟩, hwin⟩
      exact detect_window_reach snapshot sampler w g hg1 hg2 hwin w maxTicks 0
        (initialDetectorState snapshot) (by omega) (by omega) (fun _ => by omega)
  · intro snapshot sampler hng
    rw [waitForTargetResponse,
      detectAux_phase1_skip snapshot sampler maxTicks maxTicks 0
        (initialDetectorState snapshot) rfl (fun i h1 h2 => hng i) (le_refl _),
      Nat.sub_self]
    rfl

/-- A sampler whose first five samples all have length 51 but pairwise
different bytes. -/
def cexSampler (t : Nat) : Str :=
  List.replicate 51
    (if t = 0 then 'a' else if t = 1 then 'b' else if t = 2 then 'c'
      else if t = 3 then 'd' else 'e')

/-- C6 counterexample.  The detector resolves successfully on `cexSampler`
although no two of its consecutive samples are byte-identical — only their
lengths agree — refuting "succeeds exactly when the sampled text is
byte-identical across 4 consecutive samples". -/
theorem detector_succeeds_without_byte_identical_samples :
    waitForTargetResponse [] cexSampler
        = DetectOutcome.success (List.replicate 51 'e') ∧
      cexSampler 0 ≠ cexSampler 1 ∧ cexSampler 1 ≠ cexSampler 2 ∧
      cexSampler 2 ≠ cexSampler 3 ∧ cexSampler 3 ≠ cexSampler 4 := by
  refine ⟨by decide, by decide, by decide, by decide, by decide⟩

set_option maxRecDepth 4000 in
/-- Witness for `detector_phase_behavior`: the phase-1 transition at the
concrete 100/170 scenario, a successful run of a constant-growth sampler
through the success characterization, and a timed-out run of a
never-growing sampler. -/
theorem detector_phase_behavior_witness :
    (∃ st2, tickStep (List.replicate 100 'a')
        (initialDetectorState (List.replicate 100 'a')) (List.replicate 170 'b')
          = Sum.inl st2 ∧ st2.phase2 = true) ∧
      (∃ r, waitForTargetResponse [] (fun _ => List.replicate 60 'a')
        = DetectOutcome.success r) ∧
      waitForTargetResponse (List.replicate 100 'a') (fun _ => List.replicate 120 'b')
        = DetectOutcome.timedOut := by
  refine ⟨?_, ?_, ?_⟩
  · exact (detector_phase_behavior.1 (List.replicate 100 'a') (List.replicate 170 'b')
      (initialDetectorState (List.replicate 100 'a')) rfl).mpr (by decide)
  · exact (detector_phase_behavior.2.2.2.1 [] (fun _ => List.replicate 60 'a')).mpr
      ⟨0, by decide, ⟨0, le_refl 0, by decide⟩, fun i _ => rfl⟩
  · apply detector_phase_behavior.2.2.2.2
    intro t
    show ¬ (List.replicate 120 'b').length > (List.replicate 100 'a').length + MIN_NEW_CHARS
    decide

/-- C9 counterexample.  The length filter is strict (`line.length > 10`)
and applies to *trimmed* lines: on a new-content block whose first line is
exactly 10 characters and whose last line has 13 raw characters but only 7
after trimming, both lines are discarded, refuting "every line shorter than
the 10-character minimum discarded (a line of exactly 10 characters is
kept)". -/
theorem extract_drops_ten_char_line :
    extractResponse [] (str "abcdefghij\nlong enough line here\n   padded9   ")
        = str "long enough line here" ∧
      (str "abcdefghij").length = 10 ∧
      (str "   padded9   ").length = 13 := by
  refine ⟨by decide, by decide, by decide⟩

/-- C9 (amended).  On success the extraction slices the final sample at the
baseline's length, trims it, splits it into lines, trims each line, keeps
exactly the lines whose trimmed length exceeds 10 (a line of exactly 10
characters is dropped), and rejoins the survivors in order with newlines
(trimming the result): every kept line is trimmed and longer than 10, every
line longer than 10 is kept, and the kept lines are a subsequence of the
split lines. -/
theorem extractResponse_filter (beforeText afterText : Str) :
    (∀ l ∈ keptLines beforeText afterText, 10 < l.length ∧ jsTrim l = l) ∧
    (∀ l ∈ responseLines beforeText afterText,
      10 < l.length → l ∈ keptLines beforeText afterText) ∧
    List.Sublist (keptLines beforeText afterText) (responseLines beforeText afterText) ∧
    extractResponse beforeText afterText
      = jsTrim (List.intercalate (str "\n") (keptLines beforeText afterText)) := by
  refine ⟨?_, ?_, List.filter_sublist _, rfl⟩
  · intro l hl
    have hmem := List.mem_filter.mp hl
    constructor
    · have := hmem.2
      simpa using this
    · obtain ⟨x, _, hx⟩ := List.mem_map.mp hmem.1
      rw [← hx, jsTrim_idem]
  · intro l hl hlen
    exact List.mem_filter.mpr ⟨hl, by simpa using hlen⟩

/-- Witness for `extractResponse_filter` at a concrete two-line sample. -/
theorem extractResponse_filter_witness :
    (str "big enough line x") ∈ keptLines [] (str "abc\nbig enough line x") ∧
      10 < (str "big enough line x").length ∧
      jsTrim (str "big enough line x") = str "big enough line x" :=
  ⟨by decide,
    ((extractResponse_filter [] (str "abc\nbig enough line x")).1 _ (by decide)).1,
    ((extractResponse_filter [] (str "abc\nbig enough line x")).1 _ (by decide)).2⟩

/-!
## background.js — pending-handoff / pending-review state machine

`pendingContext` and `pendingReview` are plain JS objects keyed by target
tab id, embedded as association lists with JS-object lookup / overwrite /
delete semantics (`mapGet` / `mapSet` / `mapDelete`).  The spec's
PendingHandoff is `pendingContext`; its "session id" is the target tab id.
`handleReady` embeds the `{MODEL}_READY` branch of the message listener
(lines 490–506), `handleResponse` the `{MODEL}_RESPONSE` branch (lines
509–532, the memory side effects live outside the two maps), and
`handleCaptureOpened` the `pendingContext[tab.id] = …` assignment of
`handleCapture` — `chrome.tabs.create` hands it a freshly created tab
whose id is in neither map, which is the freshness hypothesis of
`BgReachable.capture`. -/

/-- A `pendingContext` entry: `{ contextBlock, sourceTabId, conversationId }`. -/
structure PendingContextEntry where
  contextBlock : Str
  sourceTabId : Nat
  conversationId : Str
deriving DecidableEq

/-- A `pendingReview` entry: `{ sourceTabId, conversationId }`. -/
structure PendingReviewEntry where
  sourceTabId : Nat
  conversationId : Str
deriving DecidableEq

/-- JS object property read: `m[k]`, `undefined` as `none`. -/
def mapGet {β : Type} : List (Nat × β) → Nat → Option β
  | [], _ => none
  | (k', v) :: rest, k => if k' = k then some v else mapGet rest k

/-- JS `delete m[k]`. -/
def mapDelete {β : Type} (m : List (Nat × β)) (k : Nat) : List (Nat × β) :=
  m.filter (fun p => p.1 ≠ k)

/-- JS `m[k] = v` (overwrite). -/
def mapSet {β : Type} (m : List (Nat × β)) (k : Nat) (v : β) : List (Nat × β) :=
  (k, v) :: mapDelete m k

/-- The two maps of the service worker. -/
structure BgState where
  pendingContext : List (Nat × PendingContextEntry)
  pendingReview : List (Nat × PendingReviewEntry)
deriving DecidableEq

/-- The `{MODEL}_READY` branch: with a pending handoff for the sender tab,
delete it, create the review entry and answer with
`{contextBlock, conversationId}`; otherwise answer `null` and change
nothing (`senderTabId` may be absent — `sender.tab && sender.tab.id`). -/
def handleReady (st : BgState) (senderTabId : Option Nat) :
    BgState × Option (Str × Str) :=
  match senderTabId with
  | none => (st, none)
  | some t =>
    match mapGet st.pendingContext t with
    | some pending =>
      ({ pendingContext := mapDelete st.pendingContext t
         pendingReview := mapSet st.pendingReview t
           { sourceTabId := pending.sourceTabId
             conversationId := pending.conversationId } },
        some (pending.contextBlock, pending.conversationId))
    | none => (st, none)

/-- The `{MODEL}_RESPONSE` branch restricted to the two maps: with a
pending review for the sender tab, delete it; otherwise change nothing. -/
def handleResponse (st : BgState) (senderTabId : Option Nat) : BgState :=
  match senderTabId with
  | none => st
  | some t =>
    match mapGet st.pendingReview t with
    | some _ => { st with pendingReview := mapDelete st.pendingReview t }
    | none => st

/-- The `pendingContext[tab.id] = {…}` assignment of `handleCapture`. -/
def handleCaptureOpened (st : BgState) (tabId : Nat) (e : PendingContextEntry) :
    BgState :=
  { st with pendingContext := mapSet st.pendingContext tabId e }

/-- States reachable from the empty worker state by capture / ready /
response events; a capture's tab id is freshly created by
`chrome.tabs.create` and therefore in neither map. -/
inductive BgReachable : BgState → Prop where
  | empty : BgReachable ⟨[], []⟩
  | capture (st : BgState) (tabId : Nat) (e : PendingContextEntry) :
      BgReachable st →
      mapGet st.pendingContext tabId = none →
      mapGet st.pendingReview tabId = none →
      BgReachable (handleCaptureOpened st tabId e)
  | ready (st : BgState) (tabId : Option Nat) :
      BgReachable st → BgReachable (handleReady st tabId).1
  | response (st : BgState) (tabId : Option Nat) :
      BgReachable st → BgReachable (handleResponse st tabId)

/-- Deleting a key removes it. -/
theorem mapGet_mapDelete_self {β : Type} (m : List (Nat × β)) (k : Nat) :
    mapGet (mapDelete m k) k = none := by
  induction m with
  | nil => rfl
  | cons p rest ih =>
    obtain ⟨k0, v0⟩ := p
    by_cases h : k0 = k
    · have hdel : mapDelete ((k0, v0) :: rest) k = mapDelete rest k := by
        simp [mapDelete, List.filter_cons, h]
      rw [hdel]
      exact ih
    · have hdel : mapDelete ((k0, v0) :: rest) k = (k0, v0) :: mapDelete rest k := by
        simp [mapDelete, List.filter_cons, h]
      rw [hdel]
      simp only [mapGet]
      rw [if_neg h]
      exact ih

/-- Deleting one key leaves the others alone. -/
theorem mapGet_mapDelete_ne {β : Type} (m : List (Nat × β)) (k k' : Nat)
    (h : k' ≠ k) : mapGet (mapDelete m k) k' = mapGet m k' := by
  induction m with
  | nil => rfl
  | cons p rest ih =>
    obtain ⟨k0, v0⟩ := p
    by_cases hp : k0 = k
    · have hdel : mapDelete ((k0, v0) :: rest) k = mapDelete rest k := by
        simp [mapDelete, List.filter_cons, hp]
      rw [hdel, ih]
      have hne : ¬ (k0 = k') := fun he => h (he.symm.trans hp)
      show mapGet rest k' = mapGet ((k0, v0) :: rest) k'
      simp only [mapGet]
      rw [if_neg hne]
    · have hdel : mapDelete ((k0, v0) :: rest) k = (k0, v0) :: mapDelete rest k := by
        simp [mapDelete, List.filter_cons, hp]
      rw [hdel]
      simp only [mapGet]
      by_cases hk : k0 = k'
      · rw [if_pos hk, if_pos hk]
      · rw [if_neg hk, if_neg hk]
        exact ih

/-- Overwriting a key stores the value. -/
theorem mapGet_mapSet_self {β : Type} (m : List (Nat × β)) (k : Nat) (v : β) :
    mapGet (mapSet m k v) k = some v := by
  simp [mapSet, mapGet]

/-- Overwriting one key leaves the others alone. -/
theorem mapGet_mapSet_ne {β : Type} (m : List (Nat × β)) (k k' : Nat) (v : β)
    (h : k' ≠ k) : mapGet (mapSet m k v) k' = mapGet m k' := by
  simp only [mapSet, mapGet]
  rw [if_neg (fun he => h he.symm)]
  exact mapGet_mapDelete_ne m k k' h

/-- C8.  A `READY` event for a tab with a pending handoff atomically deletes
the handoff, creates the pending review with the same `sourceTabId` and
`conversationId`, and answers with the context block and conversation id; a
`READY` event for a tab with no pending handoff answers `null` and changes
no state; and in every reachable worker state no tab id is present in both
maps simultaneously. -/
theorem ready_transfers_handoff :
    (∀ (st : BgState) (t : Nat) (p : PendingContextEntry),
      mapGet st.pendingContext t = some p →
      handleReady st (some t)
          = ({ pendingContext := mapDelete st.pendingContext t
               pendingReview := mapSet st.pendingReview t
                 { sourceTabId := p.sourceTabId
                   conversationId := p.conversationId } },
            some (p.contextBlock, p.conversationId)) ∧
        mapGet (handleReady st (some t)).1.pendingContext t = none ∧
        mapGet (handleReady st (some t)).1.pendingReview t
          = some { sourceTabId := p.sourceTabId, conversationId := p.conversationId }) ∧
    (∀ (st : BgState) (t : Nat),
      mapGet st.pendingContext t = none → handleReady st (some t) = (st, none)) ∧
    (∀ st : BgState, BgReachable st →
      ∀ k, mapGet st.pendingContext k = none ∨ mapGet st.pendingReview k = none) := by
  refine ⟨?_, ?_, ?_⟩
  · intro st t p hget
    have heq : handleReady st (some t)
        = ({ pendingContext := mapDelete st.pendingContext t
             pendingReview := mapSet st.pendingReview t
               { sourceTabId := p.sourceTabId
                 conversationId := p.conversationId } },
          some (p.contextBlock, p.conversationId)) := by
      simp only [handleReady, hget]
    refine ⟨heq, ?_, ?_⟩
    · rw [heq]
      exact mapGet_mapDelete_self _ _
    · rw [heq]
      exact mapGet_mapSet_self _ _ _
  · intro st t hget
    simp only [handleReady, hget]
  · intro st hreach
    induction hreach with
    | empty => intro k; exact Or.inl rfl
    | capture st tabId e hst hc hr ih =>
      intro k
      by_cases hk : k = tabId
      · subst hk
        exact Or.inr hr
      · rcases ih k with h | h
        · refine Or.inl ?_
          show mapGet (mapSet st.pendingContext tabId e) k = none
          rw [mapGet_mapSet_ne _ _ _ _ hk]
          exact h
        · exact Or.inr h
    | ready st tabId hst ih =>
      intro k
      cases tabId with
      | none => exact ih k
      | some t =>
        cases hc : mapGet st.pendingContext t with
        | none =>
          have heq : handleReady st (some t) = (st, none) := by
            simp only [handleReady, hc]
          rw [heq]
          exact ih k
        | some p =>
          have heq : handleReady st (some t)
              = ({ pendingContext := mapDelete st.pendingContext t
                   pendingReview := mapSet st.pendingReview t
                     { sourceTabId := p.sourceTabId
                       conversationId := p.conversationId } },
                some (p.contextBlock, p.conversationId)) := by
            simp only [handleReady, hc]
          rw [heq]
          by_cases hk : k = t
          · subst hk
            exact Or.inl (mapGet_mapDelete_self _ _)
          · rcases ih k with h | h
            · refine Or.inl ?_
              show mapGet (mapDelete st.pendingContext t) k = none
              rw [mapGet_mapDelete_ne _ _ _ hk]
              exact h
            · refine Or.inr ?_
              show mapGet (mapSet st.pendingReview t
                { sourceTabId := p.sourceTabId, conversationId := p.conversationId }) k = none
              rw [mapGet_mapSet_ne _ _ _ _ hk]
              exact h
    | response st tabId hst ih =>
      intro k
      cases tabId with
      | none => exact ih k
      | some t =>
        cases hr : mapGet st.pendingReview t with
        | none =>
          have heq : handleResponse st (some t) = st := by
            simp only [handleResponse, hr]
          rw [heq]
          exact ih k
        | some p =>
          have heq : handleResponse st (some t)
              = { st with pendingReview := mapDelete st.pendingReview t } := by
            simp only [handleResponse, hr]
          rw [heq]
          by_cases hk : k = t
          · subst hk
            exact Or.inr (mapGet_mapDelete_self _ _)
          · rcases ih k with h | h
            · exact Or.inl h
            · refine Or.inr ?_
              show mapGet (mapDelete st.pendingReview t) k = none
              rw [mapGet_mapDelete_ne _ _ _ hk]
              exact h

/-- A concrete pending handoff for the C8 witness. -/
def bgEntry : PendingContextEntry :=
  { contextBlock := str "ctx", sourceTabId := 5, conversationId := str "conv" }

/-- Witness for `ready_transfers_handoff`: capture into tab 7 from the empty
state, then handle its READY (transfer observed), a READY for the
handoff-free tab 3 (no-op observed), and disjointness at a sample key of
the reachable post-capture state. -/
theorem ready_transfers_handoff_witness :
    mapGet (handleCaptureOpened ⟨[], []⟩ 7 bgEntry).pendingContext 7 = some bgEntry ∧
      mapGet (handleReady (handleCaptureOpened ⟨[], []⟩ 7 bgEntry) (some 7)).1.pendingContext 7
        = none ∧
      handleReady (⟨[], []⟩ : BgState) (some 3) = (⟨[], []⟩, none) ∧
      (mapGet (handleCaptureOpened ⟨[], []⟩ 7 bgEntry).pendingContext 7 = none ∨
        mapGet (handleCaptureOpened ⟨[], []⟩ 7 bgEntry).pendingReview 7 = none) :=
  ⟨by decide,
    (ready_transfers_handoff.1 (handleCaptureOpened ⟨[], []⟩ 7 bgEntry) 7 bgEntry
      (by decide)).2.1,
    ready_transfers_handoff.2.1 ⟨[], []⟩ 3 (by decide),
    ready_transfers_handoff.2.2 (handleCaptureOpened ⟨[], []⟩ 7 bgEntry)
      (BgReachable.capture ⟨[], []⟩ 7 bgEntry BgReachable.empty (by decide) (by decide)) 7⟩

end DuperMemory
